import Mathlib

/-!
Shallow embedding of the wuziqi (gomoku) server core, translated from the
Rust sources, together with theorems checking the natural-language
specification against it.

Conventions of the embedding:
* machine integers (`u8`, `u16`, `u64`, `usize`) are modelled as `Nat`,
  with explicit bounds or truncation where the Rust semantics needs them;
* `Vec<u8>` and Rust `String` (a UTF-8 byte vector) are `List Nat`;
* fallible Rust functions returning `Result` are modelled with `Except`;
* channel sends are modelled as lists of emitted messages;
* wall-clock `Instant`/`Duration` amounts are passed explicitly as `Nat`
  arguments (seconds or an abstract unit).
-/

set_option maxRecDepth 10000
set_option maxHeartbeats 1000000

/-- Player color, from `game/field.rs` (`Black = 1`, `White = 2`). -/
inductive Color where
  | Black
  | White
deriving DecidableEq, Repr, Fintype

/-- Cell state, from `game/field.rs`: `B = 1`, `W = 2`, `E = 3`
(the source comment says byte 0 is banned for protocol EOF). -/
inductive State where
  | B
  | W
  | E
deriving DecidableEq, Repr, Fintype

/-- The `#[repr(u8)]` discriminants of `State` in the source
(`B = 1`, `W = 2`, `E = 3`). -/
def stateRepr : State → Nat
  | .B => 1
  | .W => 2
  | .E => 3

/-- `Color::switch` from `game/field.rs`. -/
def Color.switch : Color → Color
  | .Black => .White
  | .White => .Black

/-- `impl From<Color> for State` from `game/field.rs`. -/
def Color.toState : Color → State
  | .Black => .B
  | .White => .W

/-- Board state, from `game/field.rs` (`GameState`). -/
inductive GameState where
  | BlackWins
  | WhiteWins
  | UnFinished
  | Draw
  | Impossible
deriving DecidableEq, Repr, Fintype

/-- A 15×15 grid of cells, modelling `[[State; 15]; 15]`. -/
abbrev Grid := Fin 15 → Fin 15 → State

/-- One step of the fold inside `max_consecutive_black_white`
(`game/field_utility.rs`): the accumulator is
`(b_max, w_max, b_max_cur, w_max_cur)`. -/
def bwStep : Nat × Nat × Nat × Nat → State → Nat × Nat × Nat × Nat
  | (bMax, wMax, bCur, wCur), .B => (bMax, max wMax wCur, bCur + 1, 0)
  | (bMax, wMax, bCur, wCur), .W => (max bMax bCur, wMax, 0, wCur + 1)
  | (bMax, wMax, bCur, wCur), .E => (max bMax bCur, max wMax wCur, 0, 0)

/-- `max_consecutive_black_white` from `game/field_utility.rs`. -/
def maxConsecutiveBlackWhite (l : List State) : Nat × Nat :=
  let r := l.foldl bwStep (0, 0, 0, 0)
  (max r.1 r.2.2.1, max r.2.1 r.2.2.2)

/-- `reduce_tuple_max` from `game/field_utility.rs`.  The source reduces a
nonempty iterator with pairwise `max`; folding from `(0, 0)` agrees with it
on every nonempty list because `0` is the identity of `max` on `Nat`. -/
def reduceTupleMax (l : List (Nat × Nat)) : Nat × Nat :=
  l.foldl (fun a b => (max a.1 b.1, max a.2 b.2)) (0, 0)

/-- `rotate` from `game/field_utility.rs`: `new_field[i][j] = field[14 - j][i]`. -/
def rotate (g : Grid) : Grid :=
  fun i j => g ⟨14 - j.val, by omega⟩ i

/-- Row `i` of a grid as a list (the iterator `field[i].iter()`). -/
def rowList (g : Grid) (i : Fin 15) : List State :=
  List.ofFn fun j => g i j

/-- `rows_b_w_max` from `game/field_utility.rs`. -/
def rowsBWMax (g : Grid) : Nat × Nat :=
  reduceTupleMax (List.ofFn fun i : Fin 15 => maxConsecutiveBlackWhite (rowList g i))

/-- The first diagonal family scanned by `diagonal_b_w_max`: for
`x = x4 + 4` with `x4 < 11`, the cells `field[x - k][k]` for `k ≤ x`. -/
def diagLineLow (g : Grid) (x4 : Fin 11) : List State :=
  List.ofFn fun k : Fin (x4.val + 5) => g ⟨x4.val + 4 - k.val, by omega⟩ ⟨k.val, by omega⟩

/-- The second diagonal family scanned by `diagonal_b_w_max`: for
`x = x1 + 1` with `x1 < 10`, the cells `field[14 - m][x + m]`. -/
def diagLineHigh (g : Grid) (x1 : Fin 10) : List State :=
  List.ofFn fun m : Fin (14 - x1.val) => g ⟨14 - m.val, by omega⟩ ⟨x1.val + 1 + m.val, by omega⟩

/-- The full list of diagonal lines scanned by `diagonal_b_w_max`
(`game/field_utility.rs`): `(4..15)` then `(1..=10)`. -/
def diagLines (g : Grid) : List (List State) :=
  (List.ofFn fun x4 : Fin 11 => diagLineLow g x4)
    ++ (List.ofFn fun x1 : Fin 10 => diagLineHigh g x1)

/-- `diagonal_b_w_max` from `game/field_utility.rs`. -/
def diagonalBWMax (g : Grid) : Nat × Nat :=
  reduceTupleMax ((diagLines g).map maxConsecutiveBlackWhite)

/-- The pair `(black_max, white_max)` computed inside
`Field::update_field_state` (`game/field.rs`):
`reduce_tuple_max([rows_max, cols_max, diag_max, diag_max_t])`. -/
def bwMaxAll (g : Grid) : Nat × Nat :=
  reduceTupleMax [rowsBWMax g, rowsBWMax (rotate g), diagonalBWMax g, diagonalBWMax (rotate g)]

/-- The `match (black_max, white_max, self.e_count)` arms of
`Field::update_field_state` (`game/field.rs`).  `e_count` is a `u8`;
the arms are `(0..=4, 0..=4, 0)`, `(0..=4, 0..=4, 1..=225)`, `(5, 0..=4, _)`,
`(0..=4, 5, _)` and the wildcard. -/
def fieldStateMap (blackMax whiteMax eCount : Nat) : GameState :=
  if blackMax ≤ 4 ∧ whiteMax ≤ 4 ∧ eCount = 0 then .Draw
  else if blackMax ≤ 4 ∧ whiteMax ≤ 4 ∧ 1 ≤ eCount ∧ eCount ≤ 225 then .UnFinished
  else if blackMax = 5 ∧ whiteMax ≤ 4 then .BlackWins
  else if blackMax ≤ 4 ∧ whiteMax = 5 then .WhiteWins
  else .Impossible

/-- `Field::update_field_state` applied to a grid and an empty-cell count. -/
def updateFieldState (g : Grid) (e : Nat) : GameState :=
  fieldStateMap (bwMaxAll g).1 (bwMaxAll g).2 e

/-- The `Field` struct from `game/field.rs` (named `GameField` here to
avoid clashing with Mathlib's `Field` class). -/
structure GameField where
  inner : Grid
  field_state : GameState
  e_count : Nat
deriving DecidableEq

/-- `Field::new`. -/
def GameField.new : GameField :=
  { inner := fun _ _ => .E, field_state := .UnFinished, e_count := 225 }

/-- Errors returned by `Field::play` / `Field::clear`
(`anyhow::Error::msg` strings in the source). -/
inductive FieldErr where
  | rangeExceeded
  | occupied
  | alreadyEmpty
deriving DecidableEq, Repr

/-- Writing one cell (`*s = v` through `get_mut`). -/
def setCell (g : Grid) (x y : Fin 15) (v : State) : Grid :=
  fun i j => if i = x ∧ j = y then v else g i j

/-- `Field::play` from `game/field.rs`: range check, occupancy check,
then decrement `e_count`, write the cell and recompute the state. -/
def GameField.play (f : GameField) (x y : Nat) (c : Color) : Except FieldErr GameField :=
  if hx : x < 15 then
    if hy : y < 15 then
      if f.inner ⟨x, hx⟩ ⟨y, hy⟩ ≠ .E then .error .occupied
      else
        let e := f.e_count - 1
        let g := setCell f.inner ⟨x, hx⟩ ⟨y, hy⟩ c.toState
        .ok { inner := g, field_state := updateFieldState g e, e_count := e }
    else .error .rangeExceeded
  else .error .rangeExceeded

/-- `Field::clear` from `game/field.rs`: range check, the cell must be
nonempty, then increment `e_count`, empty the cell and recompute. -/
def GameField.clear (f : GameField) (x y : Nat) : Except FieldErr GameField :=
  if hx : x < 15 then
    if hy : y < 15 then
      if f.inner ⟨x, hx⟩ ⟨y, hy⟩ ≠ .E then
        let e := f.e_count + 1
        let g := setCell f.inner ⟨x, hx⟩ ⟨y, hy⟩ .E
        .ok { inner := g, field_state := updateFieldState g e, e_count := e }
      else .error .alreadyEmpty
    else .error .rangeExceeded
  else .error .rangeExceeded

/-- A single mutation of a `Field`. -/
inductive FieldOp where
  | play (x y : Nat) (c : Color)
  | clear (x y : Nat)

/-- Apply a mutation; a failed operation leaves the field unchanged
(the Rust methods only mutate on the `Ok` path). -/
def GameField.applyOp (f : GameField) : FieldOp → GameField
  | .play x y c =>
    match f.play x y c with
    | .ok f2 => f2
    | .error _ => f
  | .clear x y =>
    match f.clear x y with
    | .ok f2 => f2
    | .error _ => f

/-- Number of `E` cells of a grid (what `e_count` caches). -/
def emptyCount (g : Grid) : Nat :=
  (Finset.univ.filter fun p : Fin 15 × Fin 15 => g p.1 p.2 = State.E).card

/-- The consistency invariant of `Field` (spec §3 "derived state is
consistent with the grid after every mutation"). -/
def FieldInv (f : GameField) : Prop :=
  f.e_count = emptyCount f.inner ∧ f.field_state = updateFieldState f.inner f.e_count

/-! ### Board compression (`game/game_field/compression.rs`) -/

/-- `EMPTY_BIT_FLAG` (`0b10`). -/
def EMPTY_BIT_FLAG : Nat := 2

/-- `BLACK_BIT_FLAG` (`0b01`). -/
def BLACK_BIT_FLAG : Nat := 1

/-- `WHITE_BIT_FLAG` (`0`). -/
def WHITE_BIT_FLAG : Nat := 0

/-- `state_to_byte`. -/
def stateToByte : State → Nat
  | .E => EMPTY_BIT_FLAG
  | .B => BLACK_BIT_FLAG
  | .W => WHITE_BIT_FLAG

/-- `compress_four_states`. -/
def compressFourStates (s1 s2 s3 s4 : State) : Nat :=
  stateToByte s1 ^^^ (stateToByte s2 <<< 2) ^^^ (stateToByte s3 <<< 4) ^^^ (stateToByte s4 <<< 6)

/-- `decode_with_flag`: test the empty flag and black flag at the given
bit offset of the packed byte. -/
def decodeWithFlag (byte shiftBit : Nat) : State :=
  let isEmpty : Bool := ((EMPTY_BIT_FLAG <<< shiftBit) &&& byte) != 0
  let isBlack : Bool := ((BLACK_BIT_FLAG <<< shiftBit) &&& byte) != 0
  match isEmpty, isBlack with
  | false, true => .B
  | false, false => .W
  | _, _ => .E

/-- `decompress_four_states`. -/
def decompressFourStates (b : Nat) : State × State × State × State :=
  (decodeWithFlag b 0, decodeWithFlag b 2, decodeWithFlag b 4, decodeWithFlag b 6)

/-- `compress_15_states`: four packed bytes per row, the 16th slot being `E`. -/
def compress15States (row : Fin 15 → State) : Nat × Nat × Nat × Nat :=
  (compressFourStates (row 0) (row 1) (row 2) (row 3),
    compressFourStates (row 4) (row 5) (row 6) (row 7),
    compressFourStates (row 8) (row 9) (row 10) (row 11),
    compressFourStates (row 12) (row 13) (row 14) .E)

/-- `decompress_15_states`. -/
def decompress15States (t : Nat × Nat × Nat × Nat) : Fin 15 → State :=
  let p0 := decompressFourStates t.1
  let p1 := decompressFourStates t.2.1
  let p2 := decompressFourStates t.2.2.1
  let p3 := decompressFourStates t.2.2.2
  fun j =>
    [p0.1, p0.2.1, p0.2.2.1, p0.2.2.2,
      p1.1, p1.2.1, p1.2.2.1, p1.2.2.2,
      p2.1, p2.2.1, p2.2.2.1, p2.2.2.2,
      p3.1, p3.2.1, p3.2.2.1].getD j.val .E

/-- `compress_field`: one packed 4-byte tuple per row. -/
def compressField (g : Grid) : Fin 15 → Nat × Nat × Nat × Nat :=
  fun n => compress15States (g n)

/-- `decompress_field`. -/
def decompressField (d : Fin 15 → Nat × Nat × Nat × Nat) : Grid :=
  fun n => decompress15States (d n)

/-! ### Spec-side five-in-a-row predicates (spec §4.1, §8 property 1).

These four predicates formalise the spec sentence "∃ a row/col/diag with
`n` consecutive stones of color `c`" directly as windows of `n` adjacent
cells, independently of how the code scans lines. -/

/-- A horizontal window of `n` consecutive cells of color `c`. -/
def hasRunRow (c : State) (n : Nat) (g : Grid) : Prop :=
  ∃ i : Fin 15, ∃ j : Fin 15, ∃ _h : j.val + n ≤ 15,
    ∀ k : Fin n, g i ⟨j.val + k.val, by omega⟩ = c

/-- A vertical window of `n` consecutive cells of color `c`. -/
def hasRunCol (c : State) (n : Nat) (g : Grid) : Prop :=
  ∃ i : Fin 15, ∃ j : Fin 15, ∃ _h : i.val + n ≤ 15,
    ∀ k : Fin n, g ⟨i.val + k.val, by omega⟩ j = c

/-- A top-left-to-bottom-right diagonal window of `n` consecutive cells. -/
def hasRunDiagDown (c : State) (n : Nat) (g : Grid) : Prop :=
  ∃ i : Fin 15, ∃ j : Fin 15, ∃ _h : i.val + n ≤ 15 ∧ j.val + n ≤ 15,
    ∀ k : Fin n, g ⟨i.val + k.val, by omega⟩ ⟨j.val + k.val, by omega⟩ = c

/-- A bottom-left-to-top-right diagonal window of `n` consecutive cells
(rows decrease while columns increase). -/
def hasRunDiagUp (c : State) (n : Nat) (g : Grid) : Prop :=
  ∃ i : Fin 15, ∃ j : Fin 15, ∃ _h : n ≤ i.val + 1 ∧ j.val + n ≤ 15,
    ∀ k : Fin n, g ⟨i.val - k.val, by omega⟩ ⟨j.val + k.val, by omega⟩ = c

/-- The spec-side statement "some row, column, or diagonal contains `n`
consecutive cells of color `c`". -/
def hasRun (c : State) (n : Nat) (g : Grid) : Prop :=
  hasRunRow c n g ∨ hasRunCol c n g ∨ hasRunDiagDown c n g ∨ hasRunDiagUp c n g

/-! ### Run-length helper functions used to analyse the scanning fold. -/

/-- Length of the leading run of `c` in a list. -/
def headRun (c : State) : List State → Nat
  | [] => 0
  | s :: l => if s = c then headRun c l + 1 else 0

/-- Length of the longest run of `c` in a list. -/
def maxRun (c : State) : List State → Nat
  | [] => 0
  | s :: l => max (headRun c (s :: l)) (maxRun c l)

/-- Longest run of `c` when a run of length `k` is already open on entry
(the shape of the current-run accumulator of the scanning fold). -/
def carryRun (c : State) (k : Nat) : List State → Nat
  | [] => k
  | s :: l => if s = c then carryRun c (k + 1) l else max k (carryRun c 0 l)

/-- Fold-maximum of a list of naturals. -/
def listMax (l : List Nat) : Nat :=
  l.foldl max 0

/-- The grid used to refute claim C1's "reaching 5 wins" reading: six
consecutive black stones in row 0, everything else empty (so 219 cells
are empty). -/
def gridSixBlack : Grid :=
  fun i j => if i.val = 0 ∧ j.val < 6 then .B else .E

/-- The empty grid. -/
def gridEmpty : Grid :=
  fun _ _ => .E

/-! ### Pausable one-shot timer (`game/session/utility.rs`).

`TimeoutGate` is modelled as a pure state machine.  Wall time is made
explicit: `pause` takes the time elapsed since the gate was last (re)armed
(`self.time.elapsed()` in the source).  `resume` additionally returns the
delay handed to `fire_alarm`, i.e. how long after the resume the alarm
would fire; `none` means no alarm is armed (wait-forever mode). -/

/-- The `State` enum of `TimeoutGate` (sequence-numbered). -/
inductive TGState where
  | Waiting (seq : Nat)
  | Paused (seq : Nat)
  | MessageSent
  | TimeoutSent
deriving DecidableEq, Repr

/-- The persistent fields of `TimeoutGate` (sender and message slots are
abstracted away; `time : Instant` is replaced by passing elapsed time to
`pause` explicitly). -/
structure TimeoutGate where
  total_elapsed : Nat
  total_delay : Option Nat
  state : TGState
deriving DecidableEq, Repr

/-- `TimeoutGate::new`: arms the alarm with the full `total_delay`. -/
def TimeoutGate.new (total_delay : Option Nat) : TimeoutGate × Option Nat :=
  ({ total_elapsed := 0, total_delay := total_delay, state := .Waiting 0 }, total_delay)

/-- `TimeoutGate::pause`: only in `Waiting`; accumulates the elapsed time
and bumps the sequence number, invalidating the pending alarm. -/
def TimeoutGate.pause (g : TimeoutGate) (elapsed : Nat) : TimeoutGate :=
  match g.state with
  | .Waiting seq =>
    { g with total_elapsed := g.total_elapsed + elapsed, state := .Paused (seq + 1) }
  | _ => g

/-- `TimeoutGate::resume`: only in `Paused`; adds the extra-time credit to
`total_delay`, arms a fresh alarm with
`total_delay.saturating_sub(total_elapsed)` and returns that delay. -/
def TimeoutGate.resume (g : TimeoutGate) (extra : Nat) : TimeoutGate × Option Nat :=
  match g.state with
  | .Paused seq =>
    match g.total_delay with
    | none => ({ g with state := .Waiting seq }, none)
    | some td =>
      let td2 := td + extra
      ({ g with total_delay := some td2, state := .Waiting seq }, some (td2 - g.total_elapsed))
  | _ => (g, none)

/-- The delay armed at resume for a gate created with delay `D`, paused
after `E` elapsed, resumed with extra credit `C` (spec §8 property 7). -/
def armedDelayAfter (D E C : Nat) : Option Nat :=
  (((TimeoutGate.new (some D)).1.pause E).resume C).2

/-! ### Session message types (`game/session/api.rs`, `messages.rs`). -/

/-- `FieldState` from `game/session/api.rs`. -/
structure FieldState where
  latest : Nat × Nat × Color
  field : Grid
deriving DecidableEq

/-- `FieldStateNullable` from `game/session/api.rs`. -/
structure FieldStateNullable where
  latest : Option (Nat × Nat × Color)
  field : Grid
deriving DecidableEq

/-- `PlayerQuitReason` from `game/session/api.rs`. -/
inductive PlayerQuitReason where
  | QuitSession
  | ExitGame
  | Disconnected
  | Error (msg : List Nat)
deriving DecidableEq

/-- `GameResult` from `game/session/api.rs`. -/
inductive GameResult where
  | BlackTimeout
  | WhiteTimeout
  | BlackWins
  | WhiteWins
  | Draw
deriving DecidableEq

/-- `GameQuitResponse` from `game/session/api.rs`. -/
inductive GameQuitResponse where
  | GameEnd (r : GameResult)
  | PlayerQuitSession (id : Nat)
  | OpponentExitGame (id : Nat)
  | OpponentDisconnected (id : Nat)
  | OpponentError (id : Nat) (msg : List Nat)
  | GameError (msg : List Nat)
deriving DecidableEq

/-- `UndoResponse` from `game/session/api.rs`. -/
inductive UndoResponse where
  | TimeoutRejected
  | Undo (f : FieldStateNullable)
  | RejectedByOpponent
  | AutoRejected
deriving DecidableEq

/-- `UndoAction` from `game/session/messages.rs`. -/
inductive UndoAction where
  | Approve
  | Reject
deriving DecidableEq

/-- `PlayerAction` from `game/session/messages.rs` (client → player actor). -/
inductive PlayerAction where
  | Play (x y : Nat)
  | RequestUndo
  | Undo (a : UndoAction)
  | Quit (q : PlayerQuitReason)
deriving DecidableEq

/-- `SessionUndoAction` from `game/session/messages.rs`. -/
inductive SessionUndoAction where
  | Approve
  | Reject
  | AutoReject
  | TimeoutReject
deriving DecidableEq

/-- `SessionPlayerAction` from `game/session/messages.rs`
(player actor → session actor). -/
inductive SessionPlayerAction where
  | Play (x y : Nat)
  | PlayTimeout
  | RequestUndo
  | Undo (a : SessionUndoAction)
  | Quit (q : PlayerQuitReason)
deriving DecidableEq

/-- `SessionPlayerResponse` from `game/session/messages.rs`
(session actor → player actor). -/
inductive SessionPlayerResponse where
  | FieldUpdate (f : FieldState)
  | UndoRequest
  | Undo (u : UndoResponse)
  | Quit (q : GameQuitResponse)
deriving DecidableEq

/-- `PlayerResponse` from `game/session/api.rs` (player actor → client). -/
inductive PlayerResponse where
  | FieldUpdate (f : FieldState)
  | UndoRequest
  | Undo (u : UndoResponse)
  | Quit (q : GameQuitResponse)
deriving DecidableEq

/-! ### The player actor (`game/session/player.rs`).

The actor's mutable state is modelled by `PlayerSt`.  The two
`TimeoutGate`s (`my_turn` and the approving clock) are abstracted to
their armed-ness: `my_turn : Bool` models `my_turn.is_some()`, and the
`Approving` dialogue constructor drops its clock.  Channel sends become
an emitted-output list, and `Killer::kill` becomes the `killed` flag. -/

/-- `UndoDialogue` from `game/session/player.rs` (the `Approving` clock is
abstracted away). -/
inductive UndoDialogue where
  | Requesting
  | Approving
deriving DecidableEq

/-- The mutable fields of `PlayerState` in `game/session/player.rs`,
plus a `killed` flag modelling actor termination. -/
structure PlayerSt where
  my_turn : Bool
  allow_undo : Bool
  undo_dialogue : Option UndoDialogue
  killed : Bool
deriving DecidableEq

/-- `PlayerState::new`: the black seat starts with `my_turn` armed. -/
def PlayerSt.new (myColor : Color) : PlayerSt :=
  { my_turn := myColor = .Black, allow_undo := false, undo_dialogue := none, killed := false }

/-- An output emitted by the player actor: either a `SessionPlayerAction`
forwarded to the session or a `PlayerResponse` forwarded to the client
(the `Response` enum of `player.rs`). -/
inductive PlayerOut where
  | toSession (a : SessionPlayerAction)
  | toClient (r : PlayerResponse)
deriving DecidableEq

/-- The fused inbox of the player actor (`Msg` in `player.rs`, without
the `Kill` sentinel which is modelled by the `killed` flag). -/
inductive PlayerMsg where
  | fromClient (a : PlayerAction)
  | fromSession (r : SessionPlayerResponse)
deriving DecidableEq

/-- `PlayerState::now_my_turn`: re-arm the turn clock and ban undo. -/
def PlayerSt.nowMyTurn (st : PlayerSt) : PlayerSt :=
  { st with my_turn := true, allow_undo := false }

/-- One step of the player actor: `handle_player_message` /
`handle_session_message` from `game/session/player.rs`, returning the new
state and the outputs sent on this step. -/
def playerStep (myColor : Color) (st : PlayerSt) : PlayerMsg → PlayerSt × List PlayerOut :=
  fun m =>
    if st.killed then (st, [])
    else
      match m with
      | .fromClient (.Play x y) =>
        -- `on_player_play`
        if st.undo_dialogue = none ∧ st.my_turn = true ∧ x < 15 ∧ y < 15 then
          ({ st with my_turn := false }, [.toSession (.Play x y)])
        else (st, [])
      | .fromClient .RequestUndo =>
        -- `on_request_undo`
        if st.undo_dialogue = none ∧ st.allow_undo = true then
          ({ st with allow_undo := false, undo_dialogue := some .Requesting },
            [.toSession .RequestUndo])
        else (st, [])
      | .fromClient (.Undo act) =>
        -- `on_approving_undo`
        if st.undo_dialogue = some .Approving then
          match act with
          | .Approve =>
            ({ st with undo_dialogue := none, my_turn := false },
              [.toSession (.Undo .Approve)])
          | .Reject =>
            ({ st with undo_dialogue := none }, [.toSession (.Undo .Reject)])
        else (st, [])
      | .fromClient (.Quit q) =>
        -- `on_quit_message`
        ({ st with killed := true }, [.toSession (.Quit q)])
      | .fromSession (.FieldUpdate f) =>
        -- `on_field_update`
        if f.latest.2.2 = myColor then
          ({ st with allow_undo := true }, [.toClient (.FieldUpdate f)])
        else
          ({ st.nowMyTurn with allow_undo := false }, [.toClient (.FieldUpdate f)])
      | .fromSession .UndoRequest =>
        -- `on_opponent_undo_request`
        if st.my_turn then
          ({ st with undo_dialogue := some .Approving }, [.toClient .UndoRequest])
        else (st, [.toSession (.Undo .AutoReject)])
      | .fromSession (.Undo rsp) =>
        -- `on_undo_response`
        match rsp with
        | .Undo f =>
          let st2 :=
            match f.latest with
            | none => if myColor = Color.Black then st.nowMyTurn else st
            | some latest => if latest.2.2 ≠ myColor then st.nowMyTurn else st
          ({ st2 with undo_dialogue := none }, [.toClient (.Undo rsp)])
        | .TimeoutRejected =>
          ({ st with undo_dialogue := none }, [.toClient (.Undo rsp)])
        | _ =>
          ({ st with undo_dialogue := none }, [.toClient (.Undo rsp)])
      | .fromSession (.Quit q) =>
        ({ st with killed := true }, [.toClient (.Quit q)])

/-- Run the player actor over a list of inbox messages, collecting all
emitted outputs. -/
def playerRun (myColor : Color) (st : PlayerSt) : List PlayerMsg → PlayerSt × List PlayerOut
  | [] => (st, [])
  | m :: ms =>
    let r := playerStep myColor st m
    let rest := playerRun myColor r.1 ms
    (rest.1, r.2 ++ rest.2)

/-- Number of `RequestUndo` messages forwarded to the session in a list
of player outputs. -/
def countRequestUndo (outs : List PlayerOut) : Nat :=
  outs.countP fun o => o = .toSession .RequestUndo

/-! ### Board actor and session routing
(`game/game_field/api.rs`, `game/session/session_impl.rs`). -/

/-- `GameCommand` from `game/game_field/api.rs`. -/
inductive GameCommand where
  | Do (x y : Nat) (color : Color)
  | Undo
  | Kill
deriving DecidableEq

/-- The board actor's state: the field plus the history deque. -/
structure GameActorSt where
  field : GameField
  history : List (Nat × Nat × Color)

/-- State change performed by `execute_command` of
`game/game_field/api.rs` (`do_play` / `undo_play`; `Kill` stops the actor
and leaves the field as is).  Failed plays and clears leave the state
unchanged (`send_unlikely_error` only reports). -/
def gameActorStep (s : GameActorSt) : GameCommand → GameActorSt
  | .Do x y color =>
    match s.field.play x y color with
    | .ok f2 => { field := f2, history := s.history ++ [(x, y, color)] }
    | .error _ => s
  | .Undo =>
    match s.history.getLast? with
    | none => s
    | some (x, y, _) =>
      match s.field.clear x y with
      | .ok f2 => { field := f2, history := s.history.dropLast }
      | .error _ => s
  | .Kill => s

/-- The board commands issued by the session actor for one
`SessionPlayerAction` (`handle_player_message` in `session_impl.rs`):
`Play → Do`, `Undo(Approve) → Undo`, `Quit → Kill`; everything else sends
no command to the board. -/
def sessionBoardCommands (playerColor : Color) : SessionPlayerAction → List GameCommand
  | .Play x y => [.Do x y playerColor]
  | .Undo .Approve => [.Undo]
  | .Quit _ => [.Kill]
  | _ => []

/-- The board commands induced by a list of player-actor outputs: only
`toSession` outputs reach the session, which routes them as above. -/
def boardCommandsOf (playerColor : Color) (outs : List PlayerOut) : List GameCommand :=
  (outs.filterMap fun o =>
    match o with
    | .toSession a => some a
    | .toClient _ => none).flatMap (sessionBoardCommands playerColor)

/-! ### Room chat (`lobby/room.rs`). -/

/-- Seat positions (`Position` in `lobby/room.rs`). -/
inductive Position where
  | First
  | Second
deriving DecidableEq, Repr

/-- `Position::opponent`. -/
def Position.opponent : Position → Position
  | .First => .Second
  | .Second => .First

/-- The fields of `PlayerInfo` relevant to chat (`lobby/room.rs`); the
response channel is modelled by tagging deliveries with the seat. -/
structure RoomPlayerInfo where
  player_name : List Nat
  ready : Bool
deriving DecidableEq

/-- The seats of `RoomInner`. -/
structure RoomSeats where
  first : Option RoomPlayerInfo
  second : Option RoomPlayerInfo
deriving DecidableEq

/-- `RoomInner::player_info`. -/
def RoomSeats.playerInfo (r : RoomSeats) : Position → Option RoomPlayerInfo
  | .First => r.first
  | .Second => r.second

/-- A chat delivery: which seat's response channel receives
`ChatMessage(name, message)`. -/
structure ChatDelivery where
  seat : Position
  name : List Nat
  message : List Nat
deriving DecidableEq

/-- `RoomInner::chat(pos, message)` from `lobby/room.rs`: look up the
player info at `pos` and send `Responses::ChatMessage(name, message)` to
that player's own sender, where `name` is that player's name. -/
def roomChat (r : RoomSeats) (pos : Position) (message : List Nat) : List ChatDelivery :=
  match r.playerInfo pos with
  | some info => [{ seat := pos, name := info.player_name, message := message }]
  | none => []

/-- The `Messages::ChatMessage` arm of `run_room` (`lobby/room.rs`): a
chat message arriving from seat `pos` is handled by
`chat(pos.opponent(), msg)`. -/
def runRoomChat (r : RoomSeats) (senderPos : Position) (msg : List Nat) : List ChatDelivery :=
  roomChat r senderPos.opponent msg

/-! ### Wire codec (`lobby/messages.rs`, `lobby/token.rs`).

Byte vectors (`Vec<u8>`) and Rust `String`s are both `List Nat`; a value
is a `String` exactly when its bytes pass the UTF-8 validator below,
which models `String::from_utf8`. -/

/-- A byte vector. -/
abbrev Bytes := List Nat

/-- `u64::to_be_bytes`. -/
def toBe8 (n : Nat) : Bytes :=
  [n / 2 ^ 56 % 256, n / 2 ^ 48 % 256, n / 2 ^ 40 % 256, n / 2 ^ 32 % 256,
    n / 2 ^ 24 % 256, n / 2 ^ 16 % 256, n / 2 ^ 8 % 256, n % 256]

/-- `(x as u16).to_be_bytes()`: truncate to 16 bits, then two big-endian
bytes. -/
def toBe2 (n : Nat) : Bytes :=
  [n % 65536 / 256, n % 256]

/-- Big-endian reassembly (`u64::from_be_bytes` / `u16::from_be_bytes`). -/
def fromBeBytes (l : Bytes) : Nat :=
  l.foldl (fun acc b => acc * 256 + b) 0

/-- A UTF-8 continuation byte (`0x80..=0xBF`). -/
def utf8Cont (b : Nat) : Bool :=
  decide (128 ≤ b ∧ b ≤ 191)

/-- Strict UTF-8 validity of a byte list, modelling the check done by
`String::from_utf8` (leading-byte ranges, continuation counts, and the
`0xE0`/`0xED`/`0xF0`/`0xF4` second-byte restrictions that exclude
overlong forms and surrogates). -/
def utf8Valid : Bytes → Bool
  | [] => true
  | b :: l =>
    if b < 128 then utf8Valid l
    else if b < 194 then false
    else if b ≤ 223 then
      decide (1 ≤ l.length) && utf8Cont (l.getD 0 0) && utf8Valid (l.drop 1)
    else if b = 224 then
      decide (2 ≤ l.length) && decide (160 ≤ l.getD 0 0 ∧ l.getD 0 0 ≤ 191)
        && utf8Cont (l.getD 1 0) && utf8Valid (l.drop 2)
    else if b = 237 then
      decide (2 ≤ l.length) && decide (128 ≤ l.getD 0 0 ∧ l.getD 0 0 ≤ 159)
        && utf8Cont (l.getD 1 0) && utf8Valid (l.drop 2)
    else if b ≤ 239 then
      decide (2 ≤ l.length) && utf8Cont (l.getD 0 0) && utf8Cont (l.getD 1 0)
        && utf8Valid (l.drop 2)
    else if b = 240 then
      decide (3 ≤ l.length) && decide (144 ≤ l.getD 0 0 ∧ l.getD 0 0 ≤ 191)
        && utf8Cont (l.getD 1 0) && utf8Cont (l.getD 2 0) && utf8Valid (l.drop 3)
    else if b ≤ 243 then
      decide (3 ≤ l.length) && utf8Cont (l.getD 0 0) && utf8Cont (l.getD 1 0)
        && utf8Cont (l.getD 2 0) && utf8Valid (l.drop 3)
    else if b = 244 then
      decide (3 ≤ l.length) && decide (128 ≤ l.getD 0 0 ∧ l.getD 0 0 ≤ 143)
        && utf8Cont (l.getD 1 0) && utf8Cont (l.getD 2 0) && utf8Valid (l.drop 3)
    else false
termination_by l => l.length
decreasing_by
  all_goals simp only [List.length_drop, List.length_cons]
  all_goals omega

/-- `String::from_utf8`: succeed with the same bytes iff they are valid
UTF-8. -/
def fromUtf8 (l : Bytes) : Option Bytes :=
  if utf8Valid l then some l else none

/-- Byte length of a UTF-8 character from its leading byte. -/
def utf8CharLen (b : Nat) : Nat :=
  if b < 128 then 1 else if b < 224 then 2 else if b < 240 then 3 else 4

/-- Grapheme iteration, modelling `unicode_segmentation`'s
`graphemes(true)` for strings without combining sequences: each complete
UTF-8 character is one grapheme.  The token alphabet consists of plain
CJK ideographs, for which this is exact. -/
def utf8Graphemes : Bytes → List Bytes
  | [] => []
  | b :: l =>
    (b :: l.take (utf8CharLen b - 1)) :: utf8Graphemes (l.drop (utf8CharLen b - 1))
termination_by l => l.length
decreasing_by
  simp only [List.length_drop, List.length_cons]
  omega

/-- The 116-symbol token alphabet of `lobby/token.rs`
(`encode_decode_char!`), as UTF-8 byte triples, listed in code order
(code `i` is entry `i`). -/
def tokenAlphabet : List Bytes := [
    [232, 167, 130], [232, 135, 170], [229, 156, 168], [232, 143, 169],
    [232, 144, 168], [232, 161, 140], [230, 183, 177], [232, 136, 172],
    [232, 139, 165], [230, 179, 162], [231, 189, 151], [232, 156, 156],
    [229, 164, 154], [230, 151, 182], [231, 133, 167], [232, 167, 129],
    [228, 186, 148], [232, 149, 180], [231, 154, 134], [231, 169, 186],
    [229, 186, 166], [228, 184, 128], [229, 136, 135], [232, 139, 166],
    [229, 142, 132], [232, 136, 141], [229, 136, 169], [229, 173, 144],
    [232, 137, 178], [228, 184, 141], [229, 188, 130], [229, 141, 179],
    [230, 152, 175], [229, 143, 151], [230, 131, 179], [232, 175, 134],
    [228, 186, 166], [229, 164, 141], [229, 166, 130], [232, 175, 184],
    [230, 179, 149], [231, 155, 184], [231, 148, 159], [231, 129, 173],
    [229, 158, 162], [229, 135, 128], [229, 162, 158], [229, 135, 143],
    [230, 149, 133], [228, 184, 173], [230, 151, 160], [231, 156, 188],
    [232, 128, 179], [233, 188, 187], [232, 136, 140], [232, 186, 171],
    [230, 132, 143], [229, 163, 176], [233, 166, 153], [229, 145, 179],
    [232, 167, 166], [231, 149, 140], [228, 185, 131], [232, 135, 179],
    [230, 152, 142], [229, 176, 189], [232, 128, 129], [230, 173, 187],
    [233, 155, 134], [233, 129, 147], [230, 153, 186], [229, 190, 151],
    [228, 187, 165], [230, 137, 128], [230, 143, 144], [229, 159, 181],
    [228, 190, 157], [229, 191, 131], [231, 189, 163], [231, 162, 141],
    [230, 156, 137], [230, 129, 144], [230, 128, 150], [232, 191, 156],
    [231, 166, 187], [233, 162, 160], [229, 128, 146], [230, 162, 166],
    [231, 169, 182], [231, 171, 159], [230, 182, 133], [231, 163, 144],
    [228, 184, 137], [228, 184, 150], [228, 189, 155], [233, 152, 191],
    [232, 128, 168], [232, 151, 144], [231, 159, 165], [229, 164, 167],
    [231, 165, 158], [229, 146, 146], [228, 184, 138], [231, 173, 137],
    [232, 131, 189], [233, 153, 164], [231, 156, 159], [229, 174, 158],
    [232, 153, 154], [232, 175, 180], [230, 155, 176], [230, 143, 173],
    [232, 176, 155], [229, 131, 167], [229, 169, 134], [232, 175, 131]]

/-- `char_to_code`: the position of a grapheme in the alphabet. -/
def charToCode (c : Bytes) : Option Nat :=
  tokenAlphabet.indexOf? c

/-- `code_to_char`. -/
def codeToChar (c : Nat) : Option Bytes :=
  tokenAlphabet[c]?

/-- `encode_token` (`RoomToken::as_code`): concatenate the characters of
the token's codes.  The source `unwrap`s `code_to_char`; codes outside
the alphabet (impossible for well-formed tokens) contribute nothing
here. -/
def encodeToken (t : List Nat) : Bytes :=
  (t.map fun c => (codeToChar c).getD []).flatten

/-- `decode_token` (`RoomToken::from_code`): the string must consist of
exactly ten graphemes, each in the alphabet.  (The source fills a
10-slot array, erroring on an 11th grapheme, on fewer than ten, or on an
unknown grapheme.) -/
def decodeToken (code : Bytes) : Option (List Nat) :=
  let gs := utf8Graphemes code
  if gs.length = 10 then gs.mapM charToCode else none

/-- `SessionConfig` from `game/session/api.rs` (three `u64` fields). -/
structure SessionConfig where
  undo_request_timeout : Nat
  undo_dialogue_extra_seconds : Nat
  play_timeout : Nat
deriving DecidableEq

/-- The client→server `Messages` enum of `lobby/messages.rs`.
`JoinRoom` carries the `RoomToken` inner array (ten codes). -/
inductive Messages where
  | ToPlayer (name : Bytes) (msg : Bytes)
  | UserName (name : Bytes)
  | CreateRoom (conf : SessionConfig)
  | JoinRoom (token : List Nat)
  | QuitRoom
  | Ready
  | Unready
  | Play (x y : Nat)
  | RequestUndo
  | ApproveUndo
  | RejectUndo
  | QuitGameSession
  | ChatMessage (msg : Bytes)
  | ExitGame
  | ClientError (msg : Bytes)
deriving DecidableEq

/-- `Messages::message_type`. -/
def Messages.messageType : Messages → Nat
  | .CreateRoom _ => 0
  | .JoinRoom _ => 1
  | .QuitRoom => 2
  | .Ready => 3
  | .Unready => 4
  | .Play _ _ => 5
  | .RequestUndo => 6
  | .ApproveUndo => 7
  | .RejectUndo => 8
  | .QuitGameSession => 9
  | .ExitGame => 10
  | .ClientError _ => 12
  | .UserName _ => 100
  | .ToPlayer _ _ => 110
  | .ChatMessage _ => 200

/-- `impl Into<Vec<u8>> for Messages`. -/
def Messages.intoBytes (m : Messages) : Bytes :=
  match m with
  | .QuitRoom | .Ready | .Unready | .RequestUndo | .ApproveUndo | .RejectUndo
  | .QuitGameSession | .ExitGame => [m.messageType]
  | .CreateRoom conf =>
    m.messageType ::
      (toBe8 conf.undo_request_timeout ++ toBe8 conf.undo_dialogue_extra_seconds
        ++ toBe8 conf.play_timeout)
  | .ToPlayer name msg => m.messageType :: (toBe2 name.length ++ name ++ msg)
  | .JoinRoom token => m.messageType :: encodeToken token
  | .Play x y => [m.messageType, x, y]
  | .UserName name => m.messageType :: name
  | .ChatMessage msg => m.messageType :: msg
  | .ClientError msg => m.messageType :: msg

/-- Decode-error values (the `anyhow` error messages of the source,
collapsed to tags). -/
inductive DecodeErr where
  | badLength
  | badUtf8
  | badToken
  | badColor
  | badOption
  | unknownRoomState
  | unknownTag
deriving DecidableEq, Repr

/-- The observable outcome of `TryFrom<Vec<u8>>`: a decoded value, an
error, or a panic (the unchecked `bytes[0]` index). -/
inductive TryFromOut (α : Type) where
  | panic
  | fail (e : DecodeErr)
  | ok (a : α)
deriving DecidableEq

/-- `decode_utf8_string` from `lobby/messages.rs`: needs at least two
bytes (tag plus a nonempty body), then `String::from_utf8` on the rest. -/
def decodeUtf8String (bytes : Bytes) : Except DecodeErr Bytes :=
  if bytes.length < 2 then .error .badLength
  else
    match fromUtf8 (bytes.drop 1) with
    | some s => .ok s
    | none => .error .badUtf8

/-- The body of `impl TryFrom<Vec<u8>> for Messages` after the `bytes[0]`
index: the per-tag decoding arms. -/
def messagesTryFromBody (bytes : Bytes) (b : Nat) : Except DecodeErr Messages :=
  if b = 0 then
    if bytes.length ≠ 25 then .error .badLength
    else
      .ok (.CreateRoom
        { undo_request_timeout := fromBeBytes ((bytes.drop 1).take 8),
          undo_dialogue_extra_seconds := fromBeBytes ((bytes.drop 9).take 8),
          play_timeout := fromBeBytes ((bytes.drop 17).take 8) })
  else if b = 1 then
    match decodeUtf8String bytes with
    | .error e => .error e
    | .ok tokenStr =>
      match decodeToken tokenStr with
      | some t => .ok (.JoinRoom t)
      | none => .error .badToken
  else if b = 2 then .ok .QuitRoom
  else if b = 3 then .ok .Ready
  else if b = 4 then .ok .Unready
  else if b = 5 then
    if bytes.length ≠ 3 then .error .badLength
    else .ok (.Play (bytes.getD 1 0) (bytes.getD 2 0))
  else if b = 6 then .ok .RequestUndo
  else if b = 7 then .ok .ApproveUndo
  else if b = 8 then .ok .RejectUndo
  else if b = 9 then .ok .QuitGameSession
  else if b = 10 then .ok .ExitGame
  else if b = 12 then (decodeUtf8String bytes).map Messages.ClientError
  else if b = 100 then (decodeUtf8String bytes).map Messages.UserName
  else if b = 110 then
    if bytes.length < 3 then .error .badLength
    else
      let nameLen := fromBeBytes ((bytes.drop 1).take 2)
      if bytes.length < 3 + nameLen then .error .badLength
      else
        match fromUtf8 ((bytes.drop 3).take nameLen) with
        | none => .error .badUtf8
        | some name => .ok (.ToPlayer name (bytes.drop (3 + nameLen)))
  else if b = 200 then (decodeUtf8String bytes).map Messages.ChatMessage
  else .error .unknownTag

/-- `impl TryFrom<Vec<u8>> for Messages`: `bytes[0]` panics on an empty
vector; otherwise the per-tag body runs, which never panics. -/
def messagesTryFrom : Bytes → TryFromOut Messages
  | [] => .panic
  | b :: l =>
    match messagesTryFromBody (b :: l) b with
    | .ok m => .ok m
    | .error e => .fail e

/-- `RoomState` from `lobby/messages.rs`. -/
inductive RoomState where
  | Empty
  | OpponentReady (name : Bytes)
  | OpponentUnready (name : Bytes)
deriving DecidableEq

/-- `ConnectionError` from `network/connection.rs`. -/
inductive ConnectionError where
  | MaxDataLengthExceeded
  | UnknownMessageType
  | DataCorrupted
  | DecodeFailure
  | UnknownError
deriving DecidableEq

/-- The `ConnectionInitError` variants handled by the `Responses` codec
of `lobby/messages.rs` (its encoder matches exactly these seven). -/
inductive ConnectionInitError where
  | IpMaxConnExceed
  | ConnectionClosed
  | UserNameNotReceived
  | UserNameTooLong
  | UserNameExists
  | InvalidUserName
  | NetworkError (e : ConnectionError)
deriving DecidableEq

/-- The byte code the encoder assigns to each `ConnectionInitError`. -/
def connInitErrCode : ConnectionInitError → Nat
  | .IpMaxConnExceed => 1
  | .ConnectionClosed => 2
  | .UserNameNotReceived => 3
  | .UserNameTooLong => 4
  | .UserNameExists => 5
  | .InvalidUserName => 6
  | .NetworkError _ => 7

/-- The server→client `Responses` enum of `lobby/messages.rs`. -/
inductive Responses where
  | FromPlayer (name : Bytes) (msg : Bytes)
  | ConnectionSuccess
  | ConnectionInitFailure (e : ConnectionInitError)
  | RoomCreated (token : Bytes)
  | JoinRoomSuccess (token : Bytes) (st : RoomState)
  | JoinRoomFailureTokenNotFound
  | JoinRoomFailureRoomFull
  | OpponentJoinRoom (name : Bytes)
  | OpponentQuitRoom
  | OpponentReady
  | OpponentUnready
  | GameStarted (c : Color)
  | FieldUpdate (f : FieldState)
  | UndoRequest
  | UndoTimeoutRejected
  | UndoAutoRejected
  | Undo (f : FieldStateNullable)
  | UndoRejectedByOpponent
  | GameEndBlackTimeout
  | GameEndWhiteTimeout
  | GameEndBlackWins
  | GameEndWhiteWins
  | GameEndDraw
  | RoomScores (p0 : Bytes × Nat) (p1 : Bytes × Nat)
  | OpponentQuitGameSession
  | OpponentExitGame
  | OpponentDisconnected
  | GameSessionError (msg : Bytes)
  | ChatMessage (name : Bytes) (msg : Bytes)
deriving DecidableEq

/-- `Responses::response_type`. -/
def Responses.responseType : Responses → Nat
  | .RoomCreated _ => 0
  | .JoinRoomSuccess _ _ => 1
  | .JoinRoomFailureTokenNotFound => 2
  | .JoinRoomFailureRoomFull => 3
  | .OpponentJoinRoom _ => 4
  | .OpponentQuitRoom => 5
  | .OpponentReady => 6
  | .OpponentUnready => 7
  | .GameStarted _ => 8
  | .FieldUpdate _ => 9
  | .UndoRequest => 10
  | .UndoTimeoutRejected => 11
  | .UndoAutoRejected => 12
  | .Undo _ => 13
  | .UndoRejectedByOpponent => 14
  | .GameEndBlackTimeout => 15
  | .GameEndWhiteTimeout => 16
  | .GameEndBlackWins => 17
  | .GameEndWhiteWins => 18
  | .GameEndDraw => 19
  | .OpponentQuitGameSession => 20
  | .OpponentExitGame => 21
  | .OpponentDisconnected => 22
  | .GameSessionError _ => 23
  | .RoomScores _ _ => 24
  | .ConnectionSuccess => 100
  | .ConnectionInitFailure _ => 110
  | .FromPlayer _ _ => 120
  | .ChatMessage _ _ => 200

/-- The wire byte of a `Color` in `FieldUpdate` / `Undo` / `GameStarted`
payloads (`Black = 0`, `White = 1`). -/
def colorByte : Color → Nat
  | .Black => 0
  | .White => 1

/-- Decoding a wire color byte. -/
def colorOfByte (b : Nat) : Option Color :=
  if b = 0 then some .Black else if b = 1 then some .White else none

/-- The 60 packed board bytes appended by the `FieldUpdate`/`Undo`
encoders: `compress_field(..).iter().map(|x| [x.0, x.1, x.2, x.3]).flatten()`. -/
def fieldBytes (g : Grid) : Bytes :=
  (List.ofFn fun i : Fin 15 =>
    [(compressField g i).1, (compressField g i).2.1,
      (compressField g i).2.2.1, (compressField g i).2.2.2]).flatten

/-- Rebuilding `field_dat` from the byte tail that follows the header
(`field_dat[i] = (tail[4i], tail[4i+1], tail[4i+2], tail[4i+3])`). -/
def fieldDatOf (tail : Bytes) : Fin 15 → Nat × Nat × Nat × Nat :=
  fun i =>
    (tail.getD (4 * i.val) 0, tail.getD (4 * i.val + 1) 0,
      tail.getD (4 * i.val + 2) 0, tail.getD (4 * i.val + 3) 0)

/-- `impl Into<Vec<u8>> for Responses`. -/
def Responses.intoBytes (r : Responses) : Bytes :=
  match r with
  | .JoinRoomFailureTokenNotFound | .JoinRoomFailureRoomFull | .OpponentQuitRoom
  | .OpponentReady | .OpponentUnready | .UndoRequest | .UndoTimeoutRejected
  | .UndoAutoRejected | .UndoRejectedByOpponent | .GameEndBlackTimeout
  | .GameEndWhiteTimeout | .GameEndBlackWins | .GameEndWhiteWins | .GameEndDraw
  | .OpponentQuitGameSession | .OpponentExitGame | .ConnectionSuccess
  | .OpponentDisconnected => [r.responseType]
  | .ConnectionInitFailure e => [r.responseType, connInitErrCode e]
  | .JoinRoomSuccess token st =>
    r.responseType ::
      (toBe2 token.length ++ token ++
        match st with
        | .Empty => [0]
        | .OpponentUnready name => 1 :: name
        | .OpponentReady name => 2 :: name)
  | .RoomCreated token => r.responseType :: token
  | .GameStarted c => [r.responseType, colorByte c]
  | .FieldUpdate f =>
    r.responseType ::
      (f.latest.1 :: f.latest.2.1 :: colorByte f.latest.2.2 :: fieldBytes f.field)
  | .Undo f =>
    r.responseType ::
      ((match f.latest with
        | none => [0, 0, 0, 0]
        | some latest => [1, latest.1, latest.2.1, colorByte latest.2.2])
        ++ fieldBytes f.field)
  | .OpponentJoinRoom name => r.responseType :: name
  | .GameSessionError e => r.responseType :: e
  | .ChatMessage name msg => r.responseType :: (toBe2 name.length ++ name ++ msg)
  | .RoomScores p0 p1 =>
    r.responseType ::
      (toBe2 p0.1.length ++ p0.1 ++ toBe2 p0.2 ++ toBe2 p1.1.length ++ p1.1 ++ toBe2 p1.2)
  | .FromPlayer name msg => r.responseType :: (toBe2 name.length ++ name ++ msg)

/-- `decode_chat_message` from `lobby/messages.rs`. -/
def decodeChatMessage (bytes : Bytes) : Except DecodeErr (Bytes × Bytes) :=
  if bytes.length < 3 then .error .badLength
  else
    let nameLen := fromBeBytes ((bytes.drop 1).take 2)
    if bytes.length < 3 + nameLen then .error .badLength
    else
      match fromUtf8 ((bytes.drop 3).take nameLen) with
      | none => .error .badUtf8
      | some name =>
        match fromUtf8 (bytes.drop (3 + nameLen)) with
        | none => .error .badUtf8
        | some msg => .ok (name, msg)

/-- `decode_scores` from `lobby/messages.rs`. -/
def decodeScores (bytes : Bytes) : Except DecodeErr ((Bytes × Nat) × (Bytes × Nat)) :=
  if bytes.length < 3 then .error .badLength
  else
    let p0Len := fromBeBytes ((bytes.drop 1).take 2)
    if bytes.length < 7 + p0Len then .error .badLength
    else
      match fromUtf8 ((bytes.drop 3).take p0Len) with
      | none => .error .badUtf8
      | some p0Name =>
        let p0Score := fromBeBytes [bytes.getD (3 + p0Len) 0, bytes.getD (4 + p0Len) 0]
        let p1Len := fromBeBytes [bytes.getD (5 + p0Len) 0, bytes.getD (6 + p0Len) 0]
        if bytes.length < 9 + p0Len + p1Len then .error .badLength
        else
          match fromUtf8 ((bytes.drop (7 + p0Len)).take p1Len) with
          | none => .error .badUtf8
          | some p1Name =>
            let p1Score :=
              fromBeBytes [bytes.getD (7 + p0Len + p1Len) 0, bytes.getD (8 + p0Len + p1Len) 0]
            .ok ((p0Name, p0Score), (p1Name, p1Score))

/-- The body of `impl TryFrom<Vec<u8>> for Responses` after the
`bytes[0]` index. -/
def responsesTryFromBody (bytes : Bytes) (b : Nat) : Except DecodeErr Responses :=
  if b = 0 then (decodeUtf8String bytes).map Responses.RoomCreated
  else if b = 2 then .ok .JoinRoomFailureTokenNotFound
  else if b = 3 then .ok .JoinRoomFailureRoomFull
  else if b = 4 then (decodeUtf8String bytes).map Responses.OpponentJoinRoom
  else if b = 5 then .ok .OpponentQuitRoom
  else if b = 6 then .ok .OpponentReady
  else if b = 7 then .ok .OpponentUnready
  else if b = 10 then .ok .UndoRequest
  else if b = 11 then .ok .UndoTimeoutRejected
  else if b = 12 then .ok .UndoAutoRejected
  else if b = 14 then .ok .UndoRejectedByOpponent
  else if b = 15 then .ok .GameEndBlackTimeout
  else if b = 16 then .ok .GameEndWhiteTimeout
  else if b = 17 then .ok .GameEndBlackWins
  else if b = 18 then .ok .GameEndWhiteWins
  else if b = 19 then .ok .GameEndDraw
  else if b = 20 then .ok .OpponentQuitGameSession
  else if b = 21 then .ok .OpponentExitGame
  else if b = 22 then .ok .OpponentDisconnected
  else if b = 100 then .ok .ConnectionSuccess
  else if b = 1 then
    if bytes.length < 3 then .error .badLength
    else
      let tokenLen := fromBeBytes ((bytes.drop 1).take 2)
      if bytes.length < 3 + tokenLen + 1 then .error .badLength
      else
        match fromUtf8 ((bytes.drop 3).take tokenLen) with
        | none => .error .badUtf8
        | some token =>
          if bytes.getD (3 + tokenLen) 0 = 0 then .ok (.JoinRoomSuccess token .Empty)
          else if bytes.getD (3 + tokenLen) 0 = 1 then
            match fromUtf8 (bytes.drop (4 + tokenLen)) with
            | none => .error .badUtf8
            | some name => .ok (.JoinRoomSuccess token (.OpponentUnready name))
          else if bytes.getD (3 + tokenLen) 0 = 2 then
            match fromUtf8 (bytes.drop (4 + tokenLen)) with
            | none => .error .badUtf8
            | some name => .ok (.JoinRoomSuccess token (.OpponentReady name))
          else .error .unknownRoomState
  else if b = 110 then
    if bytes.length ≠ 2 then .error .badLength
    else
      .ok (.ConnectionInitFailure (
        if bytes.getD 1 0 = 1 then .IpMaxConnExceed
        else if bytes.getD 1 0 = 2 then .ConnectionClosed
        else if bytes.getD 1 0 = 3 then .UserNameNotReceived
        else if bytes.getD 1 0 = 4 then .UserNameTooLong
        else if bytes.getD 1 0 = 5 then .UserNameExists
        else if bytes.getD 1 0 = 6 then .InvalidUserName
        else .NetworkError .UnknownError))
  else if b = 120 then
    if bytes.length < 3 then .error .badLength
    else
      let nameLen := fromBeBytes ((bytes.drop 1).take 2)
      if bytes.length < 3 + nameLen then .error .badLength
      else
        match fromUtf8 ((bytes.drop 3).take nameLen) with
        | none => .error .badUtf8
        | some name => .ok (.FromPlayer name (bytes.drop (3 + nameLen)))
  else if b = 200 then
    match decodeChatMessage bytes with
    | .error e => .error e
    | .ok p => .ok (.ChatMessage p.1 p.2)
  else if b = 8 then
    if bytes.length ≠ 2 then .error .badLength
    else
      match colorOfByte (bytes.getD 1 0) with
      | none => .error .badColor
      | some c => .ok (.GameStarted c)
  else if b = 9 then
    if bytes.length ≠ 1 + 3 + 4 * 15 then .error .badLength
    else
      match colorOfByte (bytes.getD 3 0) with
      | none => .error .badColor
      | some color =>
        .ok (.FieldUpdate
          { latest := (bytes.getD 1 0, bytes.getD 2 0, color),
            field := decompressField (fieldDatOf (bytes.drop 4)) })
  else if b = 13 then
    if bytes.length ≠ 1 + 4 + 4 * 15 then .error .badLength
    else if bytes.getD 1 0 = 0 then
      .ok (.Undo { latest := none, field := decompressField (fieldDatOf (bytes.drop 5)) })
    else if bytes.getD 1 0 = 1 then
      match colorOfByte (bytes.getD 4 0) with
      | none => .error .badColor
      | some color =>
        .ok (.Undo
          { latest := some (bytes.getD 2 0, bytes.getD 3 0, color),
            field := decompressField (fieldDatOf (bytes.drop 5)) })
    else .error .badOption
  else if b = 23 then (decodeUtf8String bytes).map Responses.GameSessionError
  else if b = 24 then
    match decodeScores bytes with
    | .error e => .error e
    | .ok p => .ok (.RoomScores p.1 p.2)
  else .error .unknownTag

/-- `impl TryFrom<Vec<u8>> for Responses`: `bytes[0]` panics on an empty
vector; otherwise the per-tag body runs, which never panics. -/
def responsesTryFrom : Bytes → TryFromOut Responses
  | [] => .panic
  | b :: l =>
    match responsesTryFromBody (b :: l) b with
    | .ok r => .ok r
    | .error e => .fail e

/-- Well-formedness of a `Messages` value as a set of representability
constraints: integer fields fit their Rust widths, strings are valid
UTF-8, bare-string bodies are nonempty (forced by `decode_utf8_string`),
length-prefixed names fit a `u16`, and tokens draw codes from the
alphabet. -/
def messagesWF : Messages → Bool
  | .ToPlayer name _ => utf8Valid name && decide (name.length < 65536)
  | .UserName name => utf8Valid name && !name.isEmpty
  | .CreateRoom conf =>
    decide (conf.undo_request_timeout < 2 ^ 64 ∧ conf.undo_dialogue_extra_seconds < 2 ^ 64
      ∧ conf.play_timeout < 2 ^ 64)
  | .JoinRoom t => decide (t.length = 10) && t.all fun c => decide (c < 116)
  | .Play x y => decide (x < 256 ∧ y < 256)
  | .ChatMessage msg => utf8Valid msg && !msg.isEmpty
  | .ClientError msg => utf8Valid msg && !msg.isEmpty
  | _ => true

/-- Well-formedness of a `RoomState` payload. -/
def roomStateWF : RoomState → Bool
  | .Empty => true
  | .OpponentReady name => utf8Valid name
  | .OpponentUnready name => utf8Valid name

/-- The `ConnectionInitError` values the codec can round-trip: the
decoder collapses every `NetworkError` payload to `UnknownError`. -/
def connInitWF : ConnectionInitError → Bool
  | .NetworkError e => e = ConnectionError.UnknownError
  | _ => true

/-- Well-formedness of a `Responses` value (same conventions as
`messagesWF`). -/
def responsesWF : Responses → Bool
  | .FromPlayer name _ => utf8Valid name && decide (name.length < 65536)
  | .ConnectionInitFailure e => connInitWF e
  | .RoomCreated token => utf8Valid token && !token.isEmpty
  | .JoinRoomSuccess token st =>
    utf8Valid token && decide (token.length < 65536) && roomStateWF st
  | .OpponentJoinRoom name => utf8Valid name && !name.isEmpty
  | .FieldUpdate f => decide (f.latest.1 < 256 ∧ f.latest.2.1 < 256)
  | .Undo f =>
    match f.latest with
    | none => true
    | some latest => decide (latest.1 < 256 ∧ latest.2.1 < 256)
  | .GameSessionError msg => utf8Valid msg && !msg.isEmpty
  | .ChatMessage name msg => utf8Valid name && decide (name.length < 65536) && utf8Valid msg
  | .RoomScores p0 p1 =>
    utf8Valid p0.1 && decide (p0.1.length < 65536) && decide (p0.2 < 65536)
      && utf8Valid p1.1 && decide (p1.1.length < 65536) && decide (p1.2 < 65536)
  | _ => true

/-- All lines scanned by `update_field_state`: the 15 rows, the 15 rows
of the rotated grid (the columns), and both diagonal families of the
grid and of its rotation. -/
def codeLines (g : Grid) : List (List State) :=
  (List.ofFn fun i : Fin 15 => rowList g i)
    ++ (List.ofFn fun i : Fin 15 => rowList (rotate g) i)
    ++ diagLines g ++ diagLines (rotate g)

/-! ### Decidability of the window-run predicates, used to evaluate the
spec-side statements on concrete grids. -/

instance (c : State) (n : Nat) (g : Grid) : Decidable (hasRunRow c n g) := by
  unfold hasRunRow; infer_instance

instance (c : State) (n : Nat) (g : Grid) : Decidable (hasRunCol c n g) := by
  unfold hasRunCol; infer_instance

instance (c : State) (n : Nat) (g : Grid) : Decidable (hasRunDiagDown c n g) := by
  unfold hasRunDiagDown; infer_instance

instance (c : State) (n : Nat) (g : Grid) : Decidable (hasRunDiagUp c n g) := by
  unfold hasRunDiagUp; infer_instance

instance (c : State) (n : Nat) (g : Grid) : Decidable (hasRun c n g) := by
  unfold hasRun; infer_instance

/-! ## Theorems -/

/-- Packing then unpacking four cells is the identity (81 cases). -/
theorem decompress_compress_four (a b c d : State) :
    decompressFourStates (compressFourStates a b c d) = (a, b, c, d) := by
  revert a b c d
  decide

/-- Unpacking a packed row restores the row. -/
theorem decompress_compress_15 (row : Fin 15 → State) (j : Fin 15) :
    decompress15States (compress15States row) j = row j := by
  fin_cases j <;>
    simp [decompress15States, compress15States, decompress_compress_four] <;> rfl

/-- Compression round-trip on whole grids (shared helper). -/
theorem decompress_compress_field (g : Grid) :
    decompressField (compressField g) = g := by
  funext i j
  exact decompress_compress_15 (g i) j

/-- C5: for every 15×15 grid over {Black, White, Empty}, decompressing
the compressed representation yields exactly the original grid. -/
theorem C5_compression_roundtrip (g : Grid) :
    decompressField (compressField g) = g :=
  decompress_compress_field g

/-- C8 counterexample: the packed two-bit encoding does not exclude the
value 0 — White's cell encoding is exactly 0, refuting the claim's "the
value 0 is excluded from legal encoded cell states". -/
theorem C8_counterexample :
    stateToByte State.W = 0 ∧ ¬ (∀ s : State, stateToByte s ≠ 0) := by
  constructor
  · rfl
  · intro h
    exact h State.W rfl

/-- C8 (amended): every cell is encoded in two bits with bit 1 the
empty-flag and bit 0 the black-flag; the decoder yields Empty whenever
the empty flag is set, otherwise Black if the black flag is set,
otherwise White; the two-bit cell encodings are E ↦ 2, B ↦ 1 and
W ↦ 0 — so 0 is White's legal packed encoding — and it is the byte
representation of the cell-state enum (B = 1, W = 2, E = 3) that
excludes 0. -/
theorem C8_cell_encoding :
    (∀ b shift : Nat,
      decodeWithFlag b shift =
        if (EMPTY_BIT_FLAG <<< shift) &&& b ≠ 0 then State.E
        else if (BLACK_BIT_FLAG <<< shift) &&& b ≠ 0 then State.B
        else State.W)
      ∧ stateToByte .E = 2 ∧ stateToByte .B = 1 ∧ stateToByte .W = 0
      ∧ (∀ s : State, stateRepr s ≠ 0) := by
  refine ⟨?_, rfl, rfl, rfl, ?_⟩
  · intro b shift
    simp only [decodeWithFlag]
    cases hE : ((EMPTY_BIT_FLAG <<< shift) &&& b) != 0 <;>
      cases hB : ((BLACK_BIT_FLAG <<< shift) &&& b) != 0 <;>
        simp_all [bne_iff_ne]
  · intro s
    cases s <;> simp [stateRepr]

/-- C4 counterexample: a gate with total delay 1, paused after 2 elapsed
and resumed with credit 5 arms a delay of 4, not the claimed
max(0, D − E) + C = 5. -/
theorem C4_counterexample :
    armedDelayAfter 1 2 5 = some 4 ∧ armedDelayAfter 1 2 5 ≠ some (1 - 2 + 5) := by
  constructor <;> decide

/-- C4 (amended): the delay armed at resume is the saturating difference
(D + C) − E — the credit extends the total delay before the elapsed time
is subtracted.  Whenever E ≤ D this agrees with the claimed
max(0, D − E) + C; when E > D the armed delay is the saturating
C − (E − D), which is strictly below max(0, D − E) + C = C whenever the
credit C is positive (and coincides with it when C = 0). -/
theorem C4_resume_delay (D E C : Nat) :
    armedDelayAfter D E C = some (D + C - E)
      ∧ (E ≤ D → armedDelayAfter D E C = some (D - E + C))
      ∧ (D < E → armedDelayAfter D E C = some (C - (E - D)))
      ∧ (D < E → 0 < C → D + C - E < D - E + C)
      ∧ (D < E → C = 0 → D + C - E = D - E + C) := by
  have hv : armedDelayAfter D E C = some (D + C - E) := by
    simp [armedDelayAfter, TimeoutGate.new, TimeoutGate.pause, TimeoutGate.resume]
  refine ⟨hv, fun h => ?_, fun h => ?_, fun h hc => by omega, fun h hc => by omega⟩
  · rw [hv]
    congr 1
    omega
  · rw [hv]
    congr 1
    omega

/-- C4 witness: instantiating the amended theorem at D = 10, E = 3,
C = 2. -/
theorem C4_resume_delay_witness :
    armedDelayAfter 10 3 2 = some (10 - 3 + 2) :=
  (C4_resume_delay 10 3 2).2.1 (by decide)

/-- C7: in a full room (names `[97]` and `[98]`), a chat message sent
from the First seat is delivered only to the Second seat (no echo), but
it carries the recipient's own name `[98]`, not the sender's name
`[97]` — `RoomInner::chat` reads the name out of the receiving seat's
`PlayerInfo`. -/
theorem C7_chat_failing_input :
    runRoomChat
        { first := some { player_name := [97], ready := false },
          second := some { player_name := [98], ready := false } }
        Position.First [104, 105]
      = [{ seat := .Second, name := [98], message := [104, 105] }]
      ∧ ([98] : List Nat) ≠ [97] := by
  exact ⟨rfl, by decide⟩

/-- C10: the byte decoders are not total: on the empty vector both
`Messages::try_from` and `Responses::try_from` index `bytes[0]` and
panic, while on every non-empty input they return a decoded message or
an error, never a panic. -/
theorem C10_decoder_totality :
    messagesTryFrom [] = .panic ∧ responsesTryFrom [] = .panic
      ∧ ∀ (b : Nat) (l : Bytes),
          messagesTryFrom (b :: l) ≠ .panic ∧ responsesTryFrom (b :: l) ≠ .panic := by
  refine ⟨rfl, rfl, fun b l => ⟨?_, ?_⟩⟩
  · cases h : messagesTryFromBody (b :: l) b <;> simp [messagesTryFrom, h]
  · cases h : responsesTryFromBody (b :: l) b <;> simp [responsesTryFrom, h]

/-- C2: a `Play(x, y)` submitted while the turn clock is not armed, or
while an undo dialogue is open, or with `x ≥ 15` or `y ≥ 15`, leaves the
player state unchanged and emits nothing, so no `Do` command reaches the
board actor and the board state is unchanged; a `Play` is forwarded
exactly when (the actor is alive,) no dialogue is open, `my_turn` is
armed and both coordinates are below 15, and forwarding consumes
`my_turn` and routes to the single board command `Do(x, y, color)`. -/
theorem C2_turn_discipline (myColor : Color) (st : PlayerSt) (x y : Nat) (b : GameActorSt) :
    (st.my_turn = false ∨ st.undo_dialogue ≠ none ∨ 15 ≤ x ∨ 15 ≤ y →
      playerStep myColor st (.fromClient (.Play x y)) = (st, [])
        ∧ (boardCommandsOf myColor (playerStep myColor st (.fromClient (.Play x y))).2).foldl
            gameActorStep b = b)
      ∧ (st.killed = false → st.undo_dialogue = none → st.my_turn = true → x < 15 → y < 15 →
          playerStep myColor st (.fromClient (.Play x y))
              = ({ st with my_turn := false }, [.toSession (.Play x y)])
            ∧ boardCommandsOf myColor (playerStep myColor st (.fromClient (.Play x y))).2
              = [.Do x y myColor]) := by
  constructor
  · intro h
    have hstep : playerStep myColor st (.fromClient (.Play x y)) = (st, []) := by
      simp only [playerStep]
      split
      · rfl
      · split
        · rename_i hc
          exfalso
          rcases h with h | h | h | h <;> simp_all <;> omega
        · rfl
    refine ⟨hstep, ?_⟩
    rw [hstep]
    simp [boardCommandsOf]
  · intro hk hd hm hx hy
    have hstep : playerStep myColor st (.fromClient (.Play x y))
        = ({ st with my_turn := false }, [.toSession (.Play x y)]) := by
      simp [playerStep, hk, hd, hm, hx, hy]
    refine ⟨hstep, ?_⟩
    rw [hstep]
    simp [boardCommandsOf, sessionBoardCommands]

/-- C2 witness: with `my_turn` unarmed, a `Play(3, 3)` is dropped and
the board actor state is untouched. -/
theorem C2_turn_discipline_witness :
    playerStep Color.Black (PlayerSt.mk false false none false) (.fromClient (.Play 3 3))
        = (PlayerSt.mk false false none false, [])
      ∧ (boardCommandsOf Color.Black
          (playerStep Color.Black (PlayerSt.mk false false none false)
            (.fromClient (.Play 3 3))).2).foldl
          gameActorStep (GameActorSt.mk GameField.new []) = GameActorSt.mk GameField.new [] :=
  (C2_turn_discipline Color.Black (PlayerSt.mk false false none false) 3 3
      (GameActorSt.mk GameField.new [])).1 (Or.inl rfl)

/-- One player-actor step can only decrease the undo budget: unless the
incoming message is a `FieldUpdate` whose latest stone has the player's
own color, the number of `RequestUndo` forwards it emits plus the
remaining allow-undo budget does not grow. -/
theorem playerStep_allow_bound (myColor : Color) (st : PlayerSt) (m : PlayerMsg)
    (hm : ∀ f : FieldState, m = .fromSession (.FieldUpdate f) → f.latest.2.2 ≠ myColor) :
    countRequestUndo (playerStep myColor st m).2
        + (if (playerStep myColor st m).1.allow_undo then 1 else 0)
      ≤ (if st.allow_undo then 1 else 0) := by
  by_cases hk : st.killed
  · simp [playerStep, hk, countRequestUndo]
  cases m with
  | fromClient a =>
    cases a with
    | Play x y =>
      simp only [playerStep, hk, if_false, Bool.false_eq_true]
      split <;> simp [countRequestUndo]
    | RequestUndo =>
      simp only [playerStep, hk, if_false, Bool.false_eq_true]
      split
      · rename_i hc
        simp [countRequestUndo, hc.2]
      · simp [countRequestUndo]
    | Undo act =>
      simp only [playerStep, hk, if_false, Bool.false_eq_true]
      split
      · cases act <;> simp [countRequestUndo]
      · simp [countRequestUndo]
    | Quit q => simp [playerStep, hk, countRequestUndo]
  | fromSession r =>
    cases r with
    | FieldUpdate f =>
      have hne : f.latest.2.2 ≠ myColor := hm f rfl
      simp [playerStep, hk, hne, countRequestUndo]
    | UndoRequest =>
      simp only [playerStep, hk, if_false, Bool.false_eq_true]
      split <;> simp [countRequestUndo]
    | Undo rsp =>
      cases rsp with
      | Undo f =>
        cases hl : f.latest with
        | none =>
          by_cases hb : myColor = Color.Black <;>
            simp [playerStep, hk, hl, hb, countRequestUndo, PlayerSt.nowMyTurn]
        | some latest =>
          by_cases hc : latest.2.2 = myColor <;>
            simp [playerStep, hk, hl, hc, countRequestUndo, PlayerSt.nowMyTurn]
      | TimeoutRejected => simp [playerStep, hk, countRequestUndo]
      | RejectedByOpponent => simp [playerStep, hk, countRequestUndo]
      | AutoRejected => simp [playerStep, hk, countRequestUndo]
    | Quit q => simp [playerStep, hk, countRequestUndo]

/-- Trace form of the undo budget: over any message list containing no
own-color `FieldUpdate`, the forwards plus the remaining budget stay
within the starting budget. -/
theorem playerRun_allow_bound (myColor : Color) (msgs : List PlayerMsg) :
    ∀ st : PlayerSt,
      (∀ f : FieldState, PlayerMsg.fromSession (.FieldUpdate f) ∈ msgs
          → f.latest.2.2 ≠ myColor) →
      countRequestUndo (playerRun myColor st msgs).2
          + (if (playerRun myColor st msgs).1.allow_undo then 1 else 0)
        ≤ (if st.allow_undo then 1 else 0) := by
  induction msgs with
  | nil =>
    intro st _
    simp [playerRun, countRequestUndo]
  | cons m ms ih =>
    intro st h
    have h1 := playerStep_allow_bound myColor st m
      (fun f hf => h f (by rw [hf.symm] at *; exact List.mem_cons_self m ms))
    have h2 := ih (playerStep myColor st m).1
      (fun f hf => h f (List.mem_cons_of_mem _ hf))
    simp only [playerRun, countRequestUndo, List.countP_append] at *
    omega

/-- C6: after a successful own play (which arrives at the player actor
as a `FieldUpdate` carrying the player's color and re-arms `allow_undo`),
and until the next such own-color `FieldUpdate`, at most one
`RequestUndo` is forwarded to the session; the first allowed
`RequestUndo` clears `allow_undo` and opens the `Requesting` dialogue,
and any `RequestUndo` with `allow_undo` cleared is dropped silently. -/
theorem C6_single_undo (myColor : Color) (st : PlayerSt) (msgs : List PlayerMsg)
    (h : ∀ f : FieldState, PlayerMsg.fromSession (.FieldUpdate f) ∈ msgs
        → f.latest.2.2 ≠ myColor) :
    countRequestUndo (playerRun myColor st msgs).2 ≤ 1
      ∧ (st.killed = false → st.undo_dialogue = none → st.allow_undo = true →
          playerStep myColor st (.fromClient .RequestUndo)
            = ({ st with allow_undo := false, undo_dialogue := some .Requesting },
                [.toSession .RequestUndo]))
      ∧ (st.allow_undo = false →
          (playerStep myColor st (.fromClient .RequestUndo)).2 = []) := by
  refine ⟨?_, ?_, ?_⟩
  · have hb := playerRun_allow_bound myColor msgs st h
    split_ifs at hb <;> omega
  · intro hk hd ha
    simp [playerStep, hk, hd, ha]
  · intro ha
    by_cases hk : st.killed <;> simp [playerStep, hk, ha]

/-- C6 witness: from a state with the undo budget armed, two consecutive
`RequestUndo`s forward at most one request. -/
theorem C6_single_undo_witness :
    countRequestUndo (playerRun Color.Black (PlayerSt.mk false true none false)
        [.fromClient .RequestUndo, .fromClient .RequestUndo]).2 ≤ 1 :=
  (C6_single_undo Color.Black (PlayerSt.mk false true none false)
      [.fromClient .RequestUndo, .fromClient .RequestUndo]
      (by intro f hf; simp at hf)).1

/-- Filling an empty cell removes exactly that cell from the empty set. -/
theorem emptyCount_set_fill (g : Grid) (x y : Fin 15) (v : State)
    (hg : g x y = State.E) (hv : v ≠ State.E) :
    emptyCount (setCell g x y v) = emptyCount g - 1 := by
  have hset : (Finset.univ.filter fun p : Fin 15 × Fin 15 => setCell g x y v p.1 p.2 = State.E)
      = (Finset.univ.filter fun p : Fin 15 × Fin 15 => g p.1 p.2 = State.E).erase (x, y) := by
    ext p
    simp only [Finset.mem_filter, Finset.mem_erase, Finset.mem_univ, true_and, setCell]
    by_cases hp : p.1 = x ∧ p.2 = y
    · simp [hp.1, hp.2, hv, Prod.ext_iff]
    · simp [hp, Prod.ext_iff]
  rw [emptyCount, emptyCount, hset, Finset.card_erase_of_mem]
  simp [Finset.mem_filter, hg]

/-- Emptying a filled cell adds exactly that cell to the empty set. -/
theorem emptyCount_set_empty (g : Grid) (x y : Fin 15)
    (hg : g x y ≠ State.E) :
    emptyCount (setCell g x y .E) = emptyCount g + 1 := by
  have hset : (Finset.univ.filter fun p : Fin 15 × Fin 15 => setCell g x y .E p.1 p.2 = State.E)
      = insert (x, y) (Finset.univ.filter fun p : Fin 15 × Fin 15 => g p.1 p.2 = State.E) := by
    ext p
    simp only [Finset.mem_filter, Finset.mem_insert, Finset.mem_univ, true_and, setCell]
    by_cases hp : p.1 = x ∧ p.2 = y
    · simp [hp.1, hp.2, Prod.ext_iff]
    · simp [hp, Prod.ext_iff]
  rw [emptyCount, emptyCount, hset, Finset.card_insert_of_not_mem]
  simp [Finset.mem_filter, hg]

/-- A field whose state component is the recomputed state and whose
count matches the grid satisfies the invariant. -/
theorem fieldInv_mk (g : Grid) (e : Nat) (he : e = emptyCount g) :
    FieldInv (GameField.mk g (updateFieldState g e) e) :=
  ⟨he, by with_reducible rfl⟩

/-- The fresh field satisfies the consistency invariant. -/
theorem fieldInv_new : FieldInv GameField.new := by
  constructor
  · show (225 : Nat) = emptyCount GameField.new.inner
    rw [emptyCount]
    simp [GameField.new]
  · show GameState.UnFinished = updateFieldState GameField.new.inner 225
    decide

/-- Characterisation of a successful `play`. -/
theorem play_ok (f : GameField) (x y : Nat) (c : Color) (hx : x < 15) (hy : y < 15)
    (hcell : f.inner ⟨x, hx⟩ ⟨y, hy⟩ = State.E) :
    f.play x y c = .ok (GameField.mk (setCell f.inner ⟨x, hx⟩ ⟨y, hy⟩ c.toState)
      (updateFieldState (setCell f.inner ⟨x, hx⟩ ⟨y, hy⟩ c.toState) (f.e_count - 1))
      (f.e_count - 1)) := by
  simp [GameField.play, hx, hy, hcell]

/-- Characterisation of a successful `clear`. -/
theorem clear_ok (f : GameField) (x y : Nat) (hx : x < 15) (hy : y < 15)
    (hcell : f.inner ⟨x, hx⟩ ⟨y, hy⟩ ≠ State.E) :
    f.clear x y = .ok (GameField.mk (setCell f.inner ⟨x, hx⟩ ⟨y, hy⟩ .E)
      (updateFieldState (setCell f.inner ⟨x, hx⟩ ⟨y, hy⟩ .E) (f.e_count + 1))
      (f.e_count + 1)) := by
  simp [GameField.clear, hx, hy, hcell]

/-- A successful `play` preserves the consistency invariant. -/
theorem fieldInv_play {f f2 : GameField} (hf : FieldInv f) (x y : Nat) (c : Color)
    (hp : f.play x y c = .ok f2) : FieldInv f2 := by
  by_cases hx : x < 15
  · by_cases hy : y < 15
    · by_cases hcell : f.inner ⟨x, hx⟩ ⟨y, hy⟩ = State.E
      · have hk := play_ok f x y c hx hy hcell
        rw [hp] at hk
        injection hk with hk2
        rw [hk2]
        refine fieldInv_mk _ _ ?_
        rw [emptyCount_set_fill f.inner ⟨x, hx⟩ ⟨y, hy⟩ c.toState hcell
          (by cases c <;> simp [Color.toState]), hf.1]
      · simp [GameField.play, hx, hy, hcell] at hp
    · simp [GameField.play, hx, hy] at hp
  · simp [GameField.play, hx] at hp

/-- A successful `clear` preserves the consistency invariant. -/
theorem fieldInv_clear {f f2 : GameField} (hf : FieldInv f) (x y : Nat)
    (hp : f.clear x y = .ok f2) : FieldInv f2 := by
  by_cases hx : x < 15
  · by_cases hy : y < 15
    · by_cases hcell : f.inner ⟨x, hx⟩ ⟨y, hy⟩ = State.E
      · simp [GameField.clear, hx, hy, hcell] at hp
      · have hk := clear_ok f x y hx hy hcell
        rw [hp] at hk
        injection hk with hk2
        rw [hk2]
        refine fieldInv_mk _ _ ?_
        rw [emptyCount_set_empty f.inner ⟨x, hx⟩ ⟨y, hy⟩ hcell, hf.1]
    · simp [GameField.clear, hx, hy] at hp
  · simp [GameField.clear, hx] at hp

/-- Every mutation (successful or failed) preserves the invariant. -/
theorem fieldInv_applyOp {f : GameField} (hf : FieldInv f) (op : FieldOp) :
    FieldInv (f.applyOp op) := by
  cases op with
  | play x y c =>
    simp only [GameField.applyOp]
    cases hp : f.play x y c with
    | error e => exact hf
    | ok f2 => exact fieldInv_play hf x y c hp
  | clear x y =>
    simp only [GameField.applyOp]
    cases hp : f.clear x y with
    | error e => exact hf
    | ok f2 => exact fieldInv_clear hf x y hp

/-- Invariant preservation along any operation sequence. -/
theorem fieldInv_foldl (ops : List FieldOp) :
    ∀ f : GameField, FieldInv f → FieldInv (ops.foldl GameField.applyOp f) := by
  induction ops with
  | nil => intro f hf; exact hf
  | cons op rest ih =>
    intro f hf
    exact ih _ (fieldInv_applyOp hf op)

/-- C9: starting from the empty board, after any sequence of play and
clear mutations the cached derived state is consistent with the grid:
the stored empty count equals the number of Empty cells and the stored
board state equals the state recomputed from the grid and that count
(failed operations change nothing, so the invariant survives them
too). -/
theorem C9_cache_consistency (ops : List FieldOp) :
    FieldInv (ops.foldl GameField.applyOp GameField.new) :=
  fieldInv_foldl ops GameField.new fieldInv_new

/-! ### C1: board-state mapping.  The chain below proves that the foldl
scan of `max_consecutive_black_white` over rows, the rotated grid and both
diagonal families computes exactly the window predicates `hasRun`. -/

theorem headRun_le_maxRun (c : State) (l : List State) : headRun c l ≤ maxRun c l := by
  cases l with
  | nil => simp [headRun, maxRun]
  | cons s t =>
    rw [maxRun]
    exact le_max_left _ _

theorem carryRun_eq (c : State) (l : List State) :
    ∀ k, carryRun c k l = max (k + headRun c l) (maxRun c l) := by
  induction l with
  | nil => intro k; simp [carryRun, headRun, maxRun]
  | cons s t ih =>
    intro k
    by_cases hs : s = c
    · simp only [carryRun, headRun, maxRun, hs, if_true, ih]
      omega
    · simp only [carryRun, headRun, maxRun, hs, if_false, ih]
      have := headRun_le_maxRun c t
      omega

theorem bw_foldl_carry (l : List State) : ∀ bm wm bc wc,
    max (List.foldl bwStep (bm, wm, bc, wc) l).1 (List.foldl bwStep (bm, wm, bc, wc) l).2.2.1
        = max bm (carryRun .B bc l)
      ∧ max (List.foldl bwStep (bm, wm, bc, wc) l).2.1 (List.foldl bwStep (bm, wm, bc, wc) l).2.2.2
        = max wm (carryRun .W wc l) := by
  induction l with
  | nil => intro bm wm bc wc; simp [carryRun]
  | cons s t ih =>
    intro bm wm bc wc
    cases s with
    | B =>
      refine ⟨?_, ?_⟩
      · simpa [carryRun, bwStep] using (ih bm (max wm wc) (bc + 1) 0).1
      · have h := (ih bm (max wm wc) (bc + 1) 0).2
        simp only [List.foldl_cons, bwStep, carryRun] at *
        simp only [reduceCtorEq, if_false]
        omega
    | W =>
      refine ⟨?_, ?_⟩
      · have h := (ih (max bm bc) wm 0 (wc + 1)).1
        simp only [List.foldl_cons, bwStep, carryRun] at *
        simp only [reduceCtorEq, if_false]
        omega
      · simpa [carryRun, bwStep] using (ih (max bm bc) wm 0 (wc + 1)).2
    | E =>
      refine ⟨?_, ?_⟩
      · have h := (ih (max bm bc) (max wm wc) 0 0).1
        simp only [List.foldl_cons, bwStep, carryRun] at *
        simp only [reduceCtorEq, if_false]
        omega
      · have h := (ih (max bm bc) (max wm wc) 0 0).2
        simp only [List.foldl_cons, bwStep, carryRun] at *
        simp only [reduceCtorEq, if_false]
        omega

theorem mcbw_eq (l : List State) :
    maxConsecutiveBlackWhite l = (maxRun .B l, maxRun .W l) := by
  have h := bw_foldl_carry l 0 0 0 0
  have hB := carryRun_eq .B l 0
  have hW := carryRun_eq .W l 0
  have hB2 := headRun_le_maxRun .B l
  have hW2 := headRun_le_maxRun .W l
  rw [maxConsecutiveBlackWhite]
  refine Prod.ext ?_ ?_ <;> simp only <;> omega

theorem getD_drop_add (l : List State) (i k : Nat) (d : State) :
    (l.drop i).getD k d = l.getD (i + k) d := by
  simp [List.getD_eq_getElem?_getD, List.getElem?_drop]

theorem headRun_ge_iff (c : State) :
    ∀ (l : List State) (n : Nat),
      n ≤ headRun c l ↔ n ≤ l.length ∧ ∀ k, k < n → l.getD k .E = c := by
  intro l
  induction l with
  | nil =>
    intro n
    cases n with
    | zero => simp [headRun]
    | succ m => simp [headRun]
  | cons s t ih =>
    intro n
    cases n with
    | zero => simp
    | succ m =>
      by_cases hs : s = c
      · simp only [headRun, hs, if_true]
        constructor
        · intro h
          have h2 := (ih m).1 (by omega)
          refine ⟨by simp; omega, ?_⟩
          intro k hk
          cases k with
          | zero => simp [hs]
          | succ k2 => simpa using h2.2 k2 (by omega)
        · rintro ⟨h1, h2⟩
          have : m ≤ headRun c t := by
            refine (ih m).2 ⟨by simp at h1; omega, ?_⟩
            intro k hk
            simpa using h2 (k + 1) (by omega)
          omega
      · simp only [headRun, hs, if_false]
        constructor
        · intro h; omega
        · rintro ⟨h1, h2⟩
          exact absurd (by simpa using h2 0 (by omega)) hs

theorem maxRun_ge_iff_drop (c : State) :
    ∀ (l : List State) (n : Nat),
      n ≤ maxRun c l ↔ ∃ i, n ≤ headRun c (l.drop i) := by
  intro l
  induction l with
  | nil =>
    intro n
    constructor
    · intro h
      refine ⟨0, ?_⟩
      simpa [maxRun, headRun] using h
    · rintro ⟨i, hi⟩
      simp only [List.drop_nil, headRun] at hi
      simpa [maxRun] using hi
  | cons s t ih =>
    intro n
    constructor
    · intro h
      by_cases h1 : n ≤ headRun c (s :: t)
      · exact ⟨0, by simpa using h1⟩
      · have h2 : n ≤ maxRun c t := by
          rw [maxRun] at h
          omega
        obtain ⟨i, hi⟩ := (ih n).1 h2
        exact ⟨i + 1, by simpa using hi⟩
    · rintro ⟨i, hi⟩
      cases i with
      | zero =>
        rw [maxRun]
        simp only [List.drop_zero] at hi
        omega
      | succ i2 =>
        have h2 : n ≤ maxRun c t := (ih n).2 ⟨i2, by simpa using hi⟩
        rw [maxRun]
        omega

theorem maxRun_ge_window (c : State) (l : List State) (n : Nat) :
    n ≤ maxRun c l ↔ ∃ p, p + n ≤ l.length ∧ ∀ k, k < n → l.getD (p + k) .E = c := by
  rw [maxRun_ge_iff_drop]
  constructor
  · rintro ⟨i, hi⟩
    rw [headRun_ge_iff] at hi
    obtain ⟨h1, h2⟩ := hi
    by_cases hil : i ≤ l.length
    · refine ⟨i, by simp [List.length_drop] at h1; omega, ?_⟩
      intro k hk
      have h3 := h2 k hk
      rwa [getD_drop_add] at h3
    · have hn : n = 0 := by simp [List.length_drop] at h1; omega
      exact ⟨0, by omega, fun k hk => absurd hk (by omega)⟩
  · rintro ⟨p, hp, hk⟩
    refine ⟨p, ?_⟩
    rw [headRun_ge_iff]
    refine ⟨by simp [List.length_drop]; omega, ?_⟩
    intro k hkn
    rw [getD_drop_add]
    exact hk k hkn

theorem getD_ofFn_lt {m : Nat} (f : Fin m → State) (t : Nat) (ht : t < m) (d : State) :
    (List.ofFn f).getD t d = f ⟨t, ht⟩ := by
  rw [List.getD_eq_getElem?_getD, ← List.get?_eq_getElem?, List.get?_ofFn]
  simp [List.ofFnNthVal, ht]

theorem maxRun_ofFn_window {m : Nat} (c : State) (f : Fin m → State) (n : Nat) :
    n ≤ maxRun c (List.ofFn f)
      ↔ ∃ p, ∃ _h : p + n ≤ m, ∀ k : Fin n, f ⟨p + k.val, by omega⟩ = c := by
  rw [maxRun_ge_window]
  constructor
  · rintro ⟨p, hp, hk⟩
    rw [List.length_ofFn] at hp
    refine ⟨p, hp, ?_⟩
    intro k
    have h := hk k.val k.isLt
    rwa [getD_ofFn_lt f (p + k.val) (by omega)] at h
  · rintro ⟨p, hp, hk⟩
    refine ⟨p, by rw [List.length_ofFn]; omega, ?_⟩
    intro k hkn
    rw [getD_ofFn_lt f (p + k) (by omega)]
    exact hk ⟨k, hkn⟩

theorem grid_congr (g : Grid) {a a2 b b2 : Nat}
    (ha : a < 15) (ha2 : a2 < 15) (hb : b < 15) (hb2 : b2 < 15)
    (h1 : a = a2) (h2 : b = b2) :
    g ⟨a, ha⟩ ⟨b, hb⟩ = g ⟨a2, ha2⟩ ⟨b2, hb2⟩ := by
  subst h1
  subst h2
  rfl

theorem rows_window_iff (c : State) (g : Grid) (n : Nat) (hn : 0 < n) :
    (∃ i : Fin 15, n ≤ maxRun c (rowList g i)) ↔ hasRunRow c n g := by
  unfold rowList hasRunRow
  constructor
  · rintro ⟨i, hi⟩
    rw [maxRun_ofFn_window] at hi
    obtain ⟨p, hp, hk⟩ := hi
    exact ⟨i, ⟨p, by omega⟩, hp, fun k => hk k⟩
  · rintro ⟨i, j, h, hk⟩
    refine ⟨i, ?_⟩
    rw [maxRun_ofFn_window]
    exact ⟨j.val, h, fun k => hk k⟩

theorem cols_window_iff (c : State) (g : Grid) (n : Nat) (hn : 0 < n) :
    (∃ i : Fin 15, n ≤ maxRun c (rowList (rotate g) i)) ↔ hasRunCol c n g := by
  unfold rowList hasRunCol
  constructor
  · rintro ⟨i, hi⟩
    rw [maxRun_ofFn_window] at hi
    obtain ⟨p, hp, hk⟩ := hi
    refine ⟨⟨15 - p - n, by omega⟩, i, (by omega : 15 - p - n + n ≤ 15), ?_⟩
    intro k
    show g ⟨15 - p - n + k.val, by omega⟩ i = c
    have h2 := hk ⟨n - 1 - k.val, by omega⟩
    dsimp only [rotate] at h2
    exact Eq.trans (grid_congr g (by omega) (by omega) (by omega) (by omega)
      (by omega) rfl) h2
  · rintro ⟨i0, j, h, hk⟩
    refine ⟨j, ?_⟩
    rw [maxRun_ofFn_window]
    refine ⟨15 - n - i0.val, by omega, ?_⟩
    intro k
    show g ⟨14 - (15 - n - i0.val + k.val), by omega⟩ j = c
    have h2 := hk ⟨n - 1 - k.val, by omega⟩
    dsimp only [] at h2
    exact Eq.trans (grid_congr g (by omega) (by omega) (by omega) (by omega)
      (by omega) rfl) h2

theorem diag_window_iff (c : State) (g : Grid) (n : Nat) (hn : 5 ≤ n) :
    (∃ l ∈ diagLines g, n ≤ maxRun c l) ↔ hasRunDiagUp c n g := by
  unfold diagLines hasRunDiagUp
  constructor
  · rintro ⟨l, hl, hml⟩
    rw [List.mem_append, List.mem_ofFn, List.mem_ofFn] at hl
    rcases hl with ⟨x4, rfl⟩ | ⟨x1, rfl⟩
    · unfold diagLineLow at hml
      rw [maxRun_ofFn_window] at hml
      obtain ⟨p, hp, hk⟩ := hml
      have hx4 := x4.isLt
      refine ⟨⟨x4.val + 4 - p, by omega⟩, ⟨p, by omega⟩,
        (⟨by omega, by omega⟩ : n ≤ x4.val + 4 - p + 1 ∧ p + n ≤ 15), ?_⟩
      intro k
      have hkn := k.isLt
      show g ⟨x4.val + 4 - p - k.val, by omega⟩ ⟨p + k.val, by omega⟩ = c
      have h2 : g ⟨x4.val + 4 - (p + k.val), by omega⟩ ⟨p + k.val, by omega⟩ = c := hk k
      exact Eq.trans (grid_congr g (by omega) (by omega) (by omega) (by omega)
        (by omega) (by omega)) h2
    · unfold diagLineHigh at hml
      rw [maxRun_ofFn_window] at hml
      obtain ⟨p, hp, hk⟩ := hml
      have hx1 := x1.isLt
      refine ⟨⟨14 - p, by omega⟩, ⟨x1.val + 1 + p, by omega⟩,
        (⟨by omega, by omega⟩ : n ≤ 14 - p + 1 ∧ x1.val + 1 + p + n ≤ 15), ?_⟩
      intro k
      have hkn := k.isLt
      show g ⟨14 - p - k.val, by omega⟩ ⟨x1.val + 1 + p + k.val, by omega⟩ = c
      have h2 : g ⟨14 - (p + k.val), by omega⟩ ⟨x1.val + 1 + (p + k.val), by omega⟩ = c :=
        hk k
      exact Eq.trans (grid_congr g (by omega) (by omega) (by omega) (by omega)
        (by omega) (by omega)) h2
  · rintro ⟨i, j, ⟨h1, h2⟩, hk⟩
    have hi15 := i.isLt
    have hj15 := j.isLt
    by_cases hs : i.val + j.val ≤ 14
    · refine ⟨diagLineLow g ⟨i.val + j.val - 4, by omega⟩,
        List.mem_append_left _ ?_, ?_⟩
      · rw [List.mem_ofFn]
        exact ⟨⟨i.val + j.val - 4, by omega⟩, rfl⟩
      · unfold diagLineLow
        rw [maxRun_ofFn_window]
        refine ⟨j.val, (by omega : j.val + n ≤ i.val + j.val - 4 + 5), ?_⟩
        intro k
        have hkn := k.isLt
        show g ⟨i.val + j.val - 4 + 4 - (j.val + k.val), by omega⟩
            ⟨j.val + k.val, by omega⟩ = c
        have h3 : g ⟨i.val - k.val, by omega⟩ ⟨j.val + k.val, by omega⟩ = c := hk k
        exact Eq.trans (grid_congr g (by omega) (by omega) (by omega) (by omega)
          (by omega) (by omega)) h3
    · refine ⟨diagLineHigh g ⟨i.val + j.val - 15, by omega⟩,
        List.mem_append_right _ ?_, ?_⟩
      · rw [List.mem_ofFn]
        exact ⟨⟨i.val + j.val - 15, by omega⟩, rfl⟩
      · unfold diagLineHigh
        rw [maxRun_ofFn_window]
        refine ⟨14 - i.val,
          (by omega : 14 - i.val + n ≤ 14 - (i.val + j.val - 15)), ?_⟩
        intro k
        have hkn := k.isLt
        show g ⟨14 - (14 - i.val + k.val), by omega⟩
            ⟨i.val + j.val - 15 + 1 + (14 - i.val + k.val), by omega⟩ = c
        have h3 : g ⟨i.val - k.val, by omega⟩ ⟨j.val + k.val, by omega⟩ = c := hk k
        exact Eq.trans (grid_congr g (by omega) (by omega) (by omega) (by omega)
          (by omega) (by omega)) h3

theorem diag_rot_window_iff (c : State) (g : Grid) (n : Nat) (hn : 5 ≤ n) :
    (∃ l ∈ diagLines (rotate g), n ≤ maxRun c l) ↔ hasRunDiagDown c n g := by
  unfold diagLines hasRunDiagDown
  constructor
  · rintro ⟨l, hl, hml⟩
    rw [List.mem_append, List.mem_ofFn, List.mem_ofFn] at hl
    rcases hl with ⟨x4, rfl⟩ | ⟨x1, rfl⟩
    · unfold diagLineLow rotate at hml
      rw [maxRun_ofFn_window] at hml
      obtain ⟨p, hp, hk⟩ := hml
      have hx4 := x4.isLt
      refine ⟨⟨15 - p - n, by omega⟩, ⟨x4.val + 5 - p - n, by omega⟩,
        (⟨by omega, by omega⟩ :
          15 - p - n + n ≤ 15 ∧ x4.val + 5 - p - n + n ≤ 15), ?_⟩
      intro k
      have hkn := k.isLt
      show g ⟨15 - p - n + k.val, by omega⟩ ⟨x4.val + 5 - p - n + k.val, by omega⟩ = c
      have h2 : g ⟨14 - (p + (n - 1 - k.val)), by omega⟩
          ⟨x4.val + 4 - (p + (n - 1 - k.val)), by omega⟩ = c := hk ⟨n - 1 - k.val, by omega⟩
      exact Eq.trans (grid_congr g (by omega) (by omega) (by omega) (by omega)
        (by omega) (by omega)) h2
    · unfold diagLineHigh rotate at hml
      rw [maxRun_ofFn_window] at hml
      obtain ⟨p, hp, hk⟩ := hml
      have hx1 := x1.isLt
      refine ⟨⟨14 - x1.val - p - n, by omega⟩, ⟨15 - p - n, by omega⟩,
        (⟨by omega, by omega⟩ :
          14 - x1.val - p - n + n ≤ 15 ∧ 15 - p - n + n ≤ 15), ?_⟩
      intro k
      have hkn := k.isLt
      show g ⟨14 - x1.val - p - n + k.val, by omega⟩ ⟨15 - p - n + k.val, by omega⟩ = c
      have h2 : g ⟨14 - (x1.val + 1 + (p + (n - 1 - k.val))), by omega⟩
          ⟨14 - (p + (n - 1 - k.val)), by omega⟩ = c := hk ⟨n - 1 - k.val, by omega⟩
      exact Eq.trans (grid_congr g (by omega) (by omega) (by omega) (by omega)
        (by omega) (by omega)) h2
  · rintro ⟨i, j, ⟨h1, h2⟩, hk⟩
    have hi15 := i.isLt
    have hj15 := j.isLt
    by_cases hs : j.val ≤ i.val
    · refine ⟨diagLineLow (rotate g) ⟨10 - (i.val - j.val), by omega⟩,
        List.mem_append_left _ ?_, ?_⟩
      · rw [List.mem_ofFn]
        exact ⟨⟨10 - (i.val - j.val), by omega⟩, rfl⟩
      · unfold diagLineLow rotate
        rw [maxRun_ofFn_window]
        refine ⟨15 - i.val - n,
          (by omega : 15 - i.val - n + n ≤ 10 - (i.val - j.val) + 5), ?_⟩
        intro k
        have hkn := k.isLt
        show g ⟨14 - (15 - i.val - n + k.val), by omega⟩
            ⟨10 - (i.val - j.val) + 4 - (15 - i.val - n + k.val), by omega⟩ = c
        have h3 : g ⟨i.val + (n - 1 - k.val), by omega⟩
            ⟨j.val + (n - 1 - k.val), by omega⟩ = c := hk ⟨n - 1 - k.val, by omega⟩
        exact Eq.trans (grid_congr g (by omega) (by omega) (by omega) (by omega)
          (by omega) (by omega)) h3
    · refine ⟨diagLineHigh (rotate g) ⟨j.val - i.val - 1, by omega⟩,
        List.mem_append_right _ ?_, ?_⟩
      · rw [List.mem_ofFn]
        exact ⟨⟨j.val - i.val - 1, by omega⟩, rfl⟩
      · unfold diagLineHigh rotate
        rw [maxRun_ofFn_window]
        refine ⟨15 - j.val - n,
          (by omega : 15 - j.val - n + n ≤ 14 - (j.val - i.val - 1)), ?_⟩
        intro k
        have hkn := k.isLt
        show g ⟨14 - (j.val - i.val - 1 + 1 + (15 - j.val - n + k.val)), by omega⟩
            ⟨14 - (15 - j.val - n + k.val), by omega⟩ = c
        have h3 : g ⟨i.val + (n - 1 - k.val), by omega⟩
            ⟨j.val + (n - 1 - k.val), by omega⟩ = c := hk ⟨n - 1 - k.val, by omega⟩
        exact Eq.trans (grid_congr g (by omega) (by omega) (by omega) (by omega)
          (by omega) (by omega)) h3

theorem foldl_max_ge (l : List Nat) :
    ∀ a n : Nat, n ≤ l.foldl max a ↔ n ≤ a ∨ ∃ x ∈ l, n ≤ x := by
  induction l with
  | nil => intro a n; simp
  | cons h t ih =>
    intro a n
    rw [List.foldl_cons, ih]
    constructor
    · rintro (hma | ⟨x, hx, hnx⟩)
      · rcases le_max_iff.mp hma with h1 | h1
        · exact Or.inl h1
        · exact Or.inr ⟨h, List.mem_cons_self h t, h1⟩
      · exact Or.inr ⟨x, List.mem_cons_of_mem _ hx, hnx⟩
    · rintro (hna | ⟨x, hx, hnx⟩)
      · exact Or.inl (le_max_iff.mpr (Or.inl hna))
      · rcases List.mem_cons.mp hx with rfl | hx2
        · exact Or.inl (le_max_iff.mpr (Or.inr hnx))
        · exact Or.inr ⟨x, hx2, hnx⟩

theorem reduceTupleMax_foldl (L : List (Nat × Nat)) :
    ∀ a b : Nat,
      L.foldl (fun a b => (max a.1 b.1, max a.2 b.2)) (a, b)
        = (List.foldl max a (L.map Prod.fst), List.foldl max b (L.map Prod.snd)) := by
  induction L with
  | nil => intro a b; simp
  | cons p t ih => intro a b; simp [List.foldl_cons, ih]

theorem reduceTupleMax_mcbw_fst_ge (L : List (List State)) (n : Nat) (hn : 0 < n) :
    n ≤ (reduceTupleMax (L.map maxConsecutiveBlackWhite)).1
      ↔ ∃ l ∈ L, n ≤ maxRun .B l := by
  rw [reduceTupleMax, reduceTupleMax_foldl]
  simp only [List.map_map]
  rw [foldl_max_ge]
  have hmap : (L.map fun l => (Prod.fst ∘ maxConsecutiveBlackWhite) l)
      = L.map fun l => maxRun .B l := by
    apply List.map_congr_left
    intro l _
    simp [Function.comp, mcbw_eq]
  constructor
  · rintro (h0 | ⟨x, hx, hnx⟩)
    · omega
    · rw [List.mem_map] at hx
      obtain ⟨l, hl, rfl⟩ := hx
      exact ⟨l, hl, by simpa [mcbw_eq] using hnx⟩
  · rintro ⟨l, hl, hnl⟩
    refine Or.inr ⟨maxRun .B l, ?_, hnl⟩
    rw [List.mem_map]
    exact ⟨l, hl, by simp [mcbw_eq]⟩

theorem reduceTupleMax_mcbw_snd_ge (L : List (List State)) (n : Nat) (hn : 0 < n) :
    n ≤ (reduceTupleMax (L.map maxConsecutiveBlackWhite)).2
      ↔ ∃ l ∈ L, n ≤ maxRun .W l := by
  rw [reduceTupleMax, reduceTupleMax_foldl]
  simp only [List.map_map]
  rw [foldl_max_ge]
  constructor
  · rintro (h0 | ⟨x, hx, hnx⟩)
    · omega
    · rw [List.mem_map] at hx
      obtain ⟨l, hl, rfl⟩ := hx
      exact ⟨l, hl, by simpa [mcbw_eq] using hnx⟩
  · rintro ⟨l, hl, hnl⟩
    refine Or.inr ⟨maxRun .W l, ?_, hnl⟩
    rw [List.mem_map]
    exact ⟨l, hl, by simp [mcbw_eq]⟩

theorem reduceTupleMax_ofFn_fst_ge {m : Nat} (F : Fin m → List State) (n : Nat)
    (hn : 0 < n) :
    n ≤ (reduceTupleMax (List.ofFn fun i => maxConsecutiveBlackWhite (F i))).1
      ↔ ∃ i, n ≤ maxRun .B (F i) := by
  rw [reduceTupleMax, reduceTupleMax_foldl]
  simp only [List.map_ofFn]
  rw [foldl_max_ge]
  simp only [List.mem_ofFn, Function.comp_apply, mcbw_eq]
  constructor
  · rintro (h0 | ⟨x, ⟨i, rfl⟩, hnx⟩)
    · omega
    · exact ⟨i, by simpa using hnx⟩
  · rintro ⟨i, hi⟩
    exact Or.inr ⟨_, ⟨i, rfl⟩, by simpa using hi⟩

theorem reduceTupleMax_ofFn_snd_ge {m : Nat} (F : Fin m → List State) (n : Nat)
    (hn : 0 < n) :
    n ≤ (reduceTupleMax (List.ofFn fun i => maxConsecutiveBlackWhite (F i))).2
      ↔ ∃ i, n ≤ maxRun .W (F i) := by
  rw [reduceTupleMax, reduceTupleMax_foldl]
  simp only [List.map_ofFn]
  rw [foldl_max_ge]
  simp only [List.mem_ofFn, Function.comp_apply, mcbw_eq]
  constructor
  · rintro (h0 | ⟨x, ⟨i, rfl⟩, hnx⟩)
    · omega
    · exact ⟨i, by simpa using hnx⟩
  · rintro ⟨i, hi⟩
    exact Or.inr ⟨_, ⟨i, rfl⟩, by simpa using hi⟩

theorem rowsBWMax_fst_ge (g : Grid) (n : Nat) (hn : 0 < n) :
    n ≤ (rowsBWMax g).1 ↔ ∃ i : Fin 15, n ≤ maxRun .B (rowList g i) := by
  rw [rowsBWMax]
  exact reduceTupleMax_ofFn_fst_ge (rowList g) n hn

theorem rowsBWMax_snd_ge (g : Grid) (n : Nat) (hn : 0 < n) :
    n ≤ (rowsBWMax g).2 ↔ ∃ i : Fin 15, n ≤ maxRun .W (rowList g i) := by
  rw [rowsBWMax]
  exact reduceTupleMax_ofFn_snd_ge (rowList g) n hn

theorem diagBWMax_fst_ge (g : Grid) (n : Nat) (hn : 0 < n) :
    n ≤ (diagonalBWMax g).1 ↔ ∃ l ∈ diagLines g, n ≤ maxRun .B l := by
  rw [diagonalBWMax, reduceTupleMax_mcbw_fst_ge _ _ hn]

theorem diagBWMax_snd_ge (g : Grid) (n : Nat) (hn : 0 < n) :
    n ≤ (diagonalBWMax g).2 ↔ ∃ l ∈ diagLines g, n ≤ maxRun .W l := by
  rw [diagonalBWMax, reduceTupleMax_mcbw_snd_ge _ _ hn]

set_option maxHeartbeats 200000 in
theorem bwMaxAll_split (g : Grid) (n : Nat) :
    (n ≤ (bwMaxAll g).1
        ↔ n ≤ (rowsBWMax g).1 ∨ n ≤ (rowsBWMax (rotate g)).1
          ∨ n ≤ (diagonalBWMax g).1 ∨ n ≤ (diagonalBWMax (rotate g)).1)
      ∧ (n ≤ (bwMaxAll g).2
        ↔ n ≤ (rowsBWMax g).2 ∨ n ≤ (rowsBWMax (rotate g)).2
          ∨ n ≤ (diagonalBWMax g).2 ∨ n ≤ (diagonalBWMax (rotate g)).2) := by
  constructor <;> (simp only [bwMaxAll, reduceTupleMax, List.foldl_cons, List.foldl_nil]; omega)

theorem bwMaxAll_fst_ge_iff (g : Grid) (n : Nat) (hn : 5 ≤ n) :
    n ≤ (bwMaxAll g).1 ↔ hasRun .B n g := by
  have h0 : 0 < n := by omega
  rw [(bwMaxAll_split g n).1, hasRun,
    rowsBWMax_fst_ge g n h0, rowsBWMax_fst_ge (rotate g) n h0,
    diagBWMax_fst_ge g n h0, diagBWMax_fst_ge (rotate g) n h0,
    rows_window_iff .B g n h0, cols_window_iff .B g n h0,
    diag_window_iff .B g n hn, diag_rot_window_iff .B g n hn]
  tauto

theorem bwMaxAll_snd_ge_iff (g : Grid) (n : Nat) (hn : 5 ≤ n) :
    n ≤ (bwMaxAll g).2 ↔ hasRun .W n g := by
  have h0 : 0 < n := by omega
  rw [(bwMaxAll_split g n).2, hasRun,
    rowsBWMax_snd_ge g n h0, rowsBWMax_snd_ge (rotate g) n h0,
    diagBWMax_snd_ge g n h0, diagBWMax_snd_ge (rotate g) n h0,
    rows_window_iff .W g n h0, cols_window_iff .W g n h0,
    diag_window_iff .W g n hn, diag_rot_window_iff .W g n hn]
  tauto

/-- C1 (amended): `Field::update_field_state` maps the scanned maxima and the
empty count to a `GameState` as follows: `BlackWins` iff some line holds 5
consecutive Black stones but none holds 6 consecutive Black and none holds 5
consecutive White (symmetrically for `WhiteWins`); if neither color has a
5-run, zero empties give `Draw` and a positive empty count gives `UnFinished`;
if both colors have 5-runs, or either color has a 6-run (a maximal run above
5), the state is `Impossible`.  The original claim's "some line contains 5
consecutive Black and no such White run" wrongly admits lines of 6 or more
Black stones, which the code sends to `Impossible`. -/
theorem C1_state_mapping (g : Grid) (e : Nat) (he : e ≤ 225) :
    (updateFieldState g e = .BlackWins
        ↔ hasRun .B 5 g ∧ ¬ hasRun .B 6 g ∧ ¬ hasRun .W 5 g)
      ∧ (updateFieldState g e = .WhiteWins
        ↔ hasRun .W 5 g ∧ ¬ hasRun .W 6 g ∧ ¬ hasRun .B 5 g)
      ∧ (¬ hasRun .B 5 g → ¬ hasRun .W 5 g →
          (e = 0 → updateFieldState g e = .Draw)
            ∧ (1 ≤ e → updateFieldState g e = .UnFinished))
      ∧ (hasRun .B 5 g → hasRun .W 5 g → updateFieldState g e = .Impossible)
      ∧ (hasRun .B 6 g → updateFieldState g e = .Impossible)
      ∧ (hasRun .W 6 g → updateFieldState g e = .Impossible) := by
  have hb5 := bwMaxAll_fst_ge_iff g 5 (by omega)
  have hb6 := bwMaxAll_fst_ge_iff g 6 (by omega)
  have hw5 := bwMaxAll_snd_ge_iff g 5 (by omega)
  have hw6 := bwMaxAll_snd_ge_iff g 6 (by omega)
  rw [updateFieldState, ← hb5, ← hb6, ← hw5, ← hw6]
  unfold fieldStateMap
  split_ifs with h1 h2 h3 h4 <;> refine ⟨?_, ?_, ?_, ?_, ?_, ?_⟩ <;> simp <;> omega

/-- C1 counterexample: a board whose first row starts with six consecutive
Black stones satisfies the claim's win condition (it has 5 consecutive Black
and no White run), yet `update_field_state` yields `Impossible`, not
`BlackWins`, because the scan reports a black maximum of 6. -/
theorem C1_counterexample :
    hasRun .B 5 gridSixBlack ∧ ¬ hasRun .W 5 gridSixBlack
      ∧ updateFieldState gridSixBlack 219 = .Impossible
      ∧ updateFieldState gridSixBlack 219 ≠ .BlackWins := by
  refine ⟨?_, ?_, ?_, ?_⟩
  · decide
  · decide
  · rfl
  · decide

theorem C1_state_mapping_witness :
    (225 : Nat) ≤ 225 ∧ updateFieldState gridEmpty 225 = .UnFinished := by
  refine ⟨by decide, ?_⟩
  exact ((C1_state_mapping gridEmpty 225 (by decide)).2.2.1
    (by decide) (by decide)).2 (by decide)

/-! ### C3: wire-codec round-trip. -/

/-! ### C3 helper lemmas: big-endian integers, UTF-8 chunks and the
token alphabet. -/

theorem fromBe8_toBe8 (n : Nat) (h : n < 2 ^ 64) : fromBeBytes (toBe8 n) = n := by
  simp only [toBe8, fromBeBytes, List.foldl_cons, List.foldl_nil]
  omega

theorem fromBe2_toBe2 (n : Nat) (h : n < 65536) : fromBeBytes (toBe2 n) = n := by
  simp only [toBe2, fromBeBytes, List.foldl_cons, List.foldl_nil]
  omega

theorem toBe2_length (n : Nat) : (toBe2 n).length = 2 := rfl

theorem decodeUtf8String_cons (t : Nat) (s : Bytes) (hv : utf8Valid s = true)
    (hne : s ≠ []) : decodeUtf8String (t :: s) = .ok s := by
  have hpos : 0 < s.length := List.length_pos.2 hne
  rw [decodeUtf8String, if_neg (by simp only [List.length_cons]; omega)]
  simp [fromUtf8, hv]

theorem utf8Valid_chunk3 (b1 b2 b3 : Nat) (rest : Bytes)
    (h1 : 225 ≤ b1) (h2 : b1 ≤ 236)
    (hc2 : utf8Cont b2 = true) (hc3 : utf8Cont b3 = true) :
    utf8Valid (b1 :: b2 :: b3 :: rest) = utf8Valid rest := by
  rw [utf8Valid]
  rw [if_neg (by omega), if_neg (by omega), if_neg (by omega),
    if_neg (by omega), if_neg (by omega), if_pos (by omega)]
  simp [hc2, hc3]

theorem utf8Graphemes_chunk3 (b1 b2 b3 : Nat) (rest : Bytes)
    (h1 : 224 ≤ b1) (h2 : b1 ≤ 239) :
    utf8Graphemes (b1 :: b2 :: b3 :: rest) = [b1, b2, b3] :: utf8Graphemes rest := by
  rw [utf8Graphemes]
  have hcl : utf8CharLen b1 = 3 := by
    rw [utf8CharLen, if_neg (by omega), if_neg (by omega), if_pos (by omega)]
  rw [hcl]
  simp

theorem tokenAlphabet_length : tokenAlphabet.length = 116 := rfl

theorem codeToChar_lt (c : Nat) (h : c < 116) :
    codeToChar c = some (tokenAlphabet.getD c []) := by
  rw [codeToChar, List.getD_eq_getElem?_getD,
    List.getElem?_eq_getElem (by rw [tokenAlphabet_length]; omega)]
  rfl

theorem tokenChar_shape (c : Fin 116) :
    (tokenAlphabet.getD c.val []).length = 3
      ∧ 225 ≤ (tokenAlphabet.getD c.val []).getD 0 0
      ∧ (tokenAlphabet.getD c.val []).getD 0 0 ≤ 236
      ∧ utf8Cont ((tokenAlphabet.getD c.val []).getD 1 0) = true
      ∧ utf8Cont ((tokenAlphabet.getD c.val []).getD 2 0) = true := by
  fin_cases c <;> exact ⟨rfl, by decide, by decide, rfl, rfl⟩

theorem list_eq_three (l : List Nat) (h : l.length = 3) :
    l = [l.getD 0 0, l.getD 1 0, l.getD 2 0] := by
  match l, h with
  | [a, b, c], _ => rfl

theorem charToCode_tokenChar :
    ∀ c : Fin 116, charToCode (tokenAlphabet.getD c.val []) = some c.val := by
  decide

theorem list_three_exists (l : List Nat) (h : l.length = 3) : ∃ x y z, l = [x, y, z] := by
  match l, h with
  | [x, y, z], _ => exact ⟨x, y, z, rfl⟩

theorem encodeToken_facts (t : List Nat) (h : ∀ c ∈ t, c < 116) :
    utf8Valid (encodeToken t) = true
      ∧ utf8Graphemes (encodeToken t) = t.map (fun c => tokenAlphabet.getD c [])
      ∧ (encodeToken t).length = 3 * t.length := by
  induction t with
  | nil =>
    refine ⟨?_, ?_, rfl⟩
    · show utf8Valid [] = true
      simp [utf8Valid]
    · show utf8Graphemes [] = ([] : List Bytes)
      simp [utf8Graphemes]
  | cons c rest ih =>
    have hc : c < 116 := h c (List.mem_cons_self c rest)
    have hrest : ∀ x ∈ rest, x < 116 := fun x hx => h x (List.mem_cons_of_mem c hx)
    obtain ⟨ihv, ihg, ihl⟩ := ih hrest
    obtain ⟨hlen3, hb1a, hb1b, hc2, hc3⟩ := tokenChar_shape ⟨c, hc⟩
    obtain ⟨x, y, z, hxyz0⟩ := list_three_exists _ hlen3
    have hxyz : tokenAlphabet.getD c [] = [x, y, z] := hxyz0
    rw [hxyz0] at hb1a hb1b hc2 hc3
    simp only [List.getD_cons_zero, List.getD_cons_succ] at hb1a hb1b hc2 hc3
    have henc : encodeToken (c :: rest) = x :: y :: z :: encodeToken rest := by
      rw [encodeToken, List.map_cons, List.flatten_cons, codeToChar_lt c hc, hxyz]
      rfl
    refine ⟨?_, ?_, ?_⟩
    · rw [henc, utf8Valid_chunk3 _ _ _ _ hb1a hb1b hc2 hc3]
      exact ihv
    · rw [henc, utf8Graphemes_chunk3 _ _ _ _ (by omega) (by omega), List.map_cons, ihg,
        ← hxyz]
    · rw [henc]
      simp only [List.length_cons] at *
      omega

theorem mapM_charToCode (t : List Nat) (h : ∀ c ∈ t, c < 116) :
    (t.map fun c => tokenAlphabet.getD c []).mapM charToCode = some t := by
  induction t with
  | nil => rfl
  | cons c rest ih =>
    have hc : c < 116 := h c (List.mem_cons_self c rest)
    have hrest : ∀ x ∈ rest, x < 116 := fun x hx => h x (List.mem_cons_of_mem c hx)
    have hcc : charToCode (tokenAlphabet.getD c []) = some c := charToCode_tokenChar ⟨c, hc⟩
    rw [List.map_cons, List.mapM_cons, hcc, ih hrest]
    rfl

theorem decodeToken_encodeToken (t : List Nat) (hlen : t.length = 10)
    (h : ∀ c ∈ t, c < 116) : decodeToken (encodeToken t) = some t := by
  obtain ⟨hv, hg, hl⟩ := encodeToken_facts t h
  rw [decodeToken]
  simp only [hg, List.length_map, hlen, if_pos]
  exact mapM_charToCode t h

theorem messages_roundtrip (m : Messages) (h : messagesWF m = true) :
    messagesTryFrom m.intoBytes = .ok m := by
  cases m with
  | QuitRoom => decide
  | Ready => decide
  | Unready => decide
  | RequestUndo => decide
  | ApproveUndo => decide
  | RejectUndo => decide
  | QuitGameSession => decide
  | ExitGame => decide
  | Play x y =>
    show messagesTryFrom [5, x, y] = .ok (.Play x y)
    rw [messagesTryFrom]
    have hbody : messagesTryFromBody [5, x, y] 5 = .ok (.Play x y) := by
      rw [messagesTryFromBody]
      norm_num
    rw [hbody]
  | UserName name =>
    simp only [messagesWF, Bool.and_eq_true] at h
    obtain ⟨hv, hne0⟩ := h
    have hne : name ≠ [] := by simpa using hne0
    show messagesTryFrom (100 :: name) = .ok (.UserName name)
    rw [messagesTryFrom]
    have hbody : messagesTryFromBody (100 :: name) 100 = .ok (.UserName name) := by
      rw [messagesTryFromBody]
      norm_num
      rw [decodeUtf8String_cons _ _ hv hne]
      rfl
    rw [hbody]
  | ChatMessage msg =>
    simp only [messagesWF, Bool.and_eq_true] at h
    obtain ⟨hv, hne0⟩ := h
    have hne : msg ≠ [] := by simpa using hne0
    show messagesTryFrom (200 :: msg) = .ok (.ChatMessage msg)
    rw [messagesTryFrom]
    have hbody : messagesTryFromBody (200 :: msg) 200 = .ok (.ChatMessage msg) := by
      rw [messagesTryFromBody]
      norm_num
      rw [decodeUtf8String_cons _ _ hv hne]
      rfl
    rw [hbody]
  | ClientError msg =>
    simp only [messagesWF, Bool.and_eq_true] at h
    obtain ⟨hv, hne0⟩ := h
    have hne : msg ≠ [] := by simpa using hne0
    show messagesTryFrom (12 :: msg) = .ok (.ClientError msg)
    rw [messagesTryFrom]
    have hbody : messagesTryFromBody (12 :: msg) 12 = .ok (.ClientError msg) := by
      rw [messagesTryFromBody]
      norm_num
      rw [decodeUtf8String_cons _ _ hv hne]
      rfl
    rw [hbody]
  | JoinRoom t =>
    simp only [messagesWF, Bool.and_eq_true, decide_eq_true_eq, List.all_eq_true] at h
    obtain ⟨hlen, hall⟩ := h
    have hall' : ∀ c ∈ t, c < 116 := fun c hc => by simpa using hall c hc
    obtain ⟨hv, hg, hl⟩ := encodeToken_facts t hall'
    have hne : encodeToken t ≠ [] := by
      intro e
      rw [e, hlen] at hl
      simp at hl
    show messagesTryFrom (1 :: encodeToken t) = .ok (.JoinRoom t)
    rw [messagesTryFrom]
    have hbody : messagesTryFromBody (1 :: encodeToken t) 1 = .ok (.JoinRoom t) := by
      rw [messagesTryFromBody]
      norm_num
      rw [decodeUtf8String_cons _ _ hv hne]
      show (match decodeToken (encodeToken t) with
        | some t => Except.ok (Messages.JoinRoom t)
        | none => Except.error DecodeErr.badToken) = Except.ok (Messages.JoinRoom t)
      rw [decodeToken_encodeToken t hlen hall']
    rw [hbody]
  | CreateRoom conf =>
    simp only [messagesWF, decide_eq_true_eq] at h
    obtain ⟨h1, h2, h3⟩ := h
    show messagesTryFrom
        (0 :: (toBe8 conf.undo_request_timeout ++ toBe8 conf.undo_dialogue_extra_seconds
          ++ toBe8 conf.play_timeout)) = .ok (.CreateRoom conf)
    rw [messagesTryFrom, List.append_assoc]
    have hbody : messagesTryFromBody
        (0 :: (toBe8 conf.undo_request_timeout ++ (toBe8 conf.undo_dialogue_extra_seconds
          ++ toBe8 conf.play_timeout))) 0 = .ok (.CreateRoom conf) := by
      rw [messagesTryFromBody]
      have hlen : (0 :: (toBe8 conf.undo_request_timeout
          ++ (toBe8 conf.undo_dialogue_extra_seconds ++ toBe8 conf.play_timeout)) : Bytes).length
          = 25 := by
        simp [toBe8]
      rw [if_pos rfl, hlen]
      rw [if_neg (by omega)]
      have e1 : ((0 :: (toBe8 conf.undo_request_timeout
          ++ (toBe8 conf.undo_dialogue_extra_seconds ++ toBe8 conf.play_timeout)) : Bytes).drop
            1).take 8 = toBe8 conf.undo_request_timeout := by
        show ((toBe8 conf.undo_request_timeout
          ++ (toBe8 conf.undo_dialogue_extra_seconds ++ toBe8 conf.play_timeout)).take 8) = _
        exact List.take_left' rfl
      have e2 : ((0 :: (toBe8 conf.undo_request_timeout
          ++ (toBe8 conf.undo_dialogue_extra_seconds ++ toBe8 conf.play_timeout)) : Bytes).drop
            9).take 8 = toBe8 conf.undo_dialogue_extra_seconds := by
        show ((toBe8 conf.undo_request_timeout
          ++ (toBe8 conf.undo_dialogue_extra_seconds ++ toBe8 conf.play_timeout)).drop 8).take 8
            = _
        rw [List.drop_left' (show (toBe8 conf.undo_request_timeout).length = 8 from rfl)]
        exact List.take_left' rfl
      have e3 : ((0 :: (toBe8 conf.undo_request_timeout
          ++ (toBe8 conf.undo_dialogue_extra_seconds ++ toBe8 conf.play_timeout)) : Bytes).drop
            17).take 8 = toBe8 conf.play_timeout := by
        show ((toBe8 conf.undo_request_timeout
          ++ (toBe8 conf.undo_dialogue_extra_seconds ++ toBe8 conf.play_timeout)).drop 16).take 8
            = _
        rw [show (16 : Nat) = 8 + 8 from rfl, ← List.drop_drop,
          List.drop_left' (show (toBe8 conf.undo_request_timeout).length = 8 from rfl),
          List.drop_left' (show (toBe8 conf.undo_dialogue_extra_seconds).length = 8 from rfl)]
        rw [show (8 : Nat) = (toBe8 conf.play_timeout).length from rfl, List.take_length]
      rw [e1, e2, e3, fromBe8_toBe8 _ h1, fromBe8_toBe8 _ h2, fromBe8_toBe8 _ h3]
    rw [hbody]
  | ToPlayer name msg =>
    simp only [messagesWF, Bool.and_eq_true, decide_eq_true_eq] at h
    obtain ⟨hv, hlen⟩ := h
    show messagesTryFrom (110 :: (toBe2 name.length ++ name ++ msg)) = .ok (.ToPlayer name msg)
    rw [messagesTryFrom, List.append_assoc]
    have hbody : messagesTryFromBody (110 :: (toBe2 name.length ++ (name ++ msg))) 110
        = .ok (.ToPlayer name msg) := by
      rw [messagesTryFromBody]
      norm_num
      have hdrop3 : (110 :: (toBe2 name.length ++ (name ++ msg)) : Bytes).drop 3
          = name ++ msg := by
        show (toBe2 name.length ++ (name ++ msg)).drop 2 = _
        exact List.drop_left' (show (toBe2 name.length).length = 2 from rfl)
      rw [toBe2_length]
      rw [List.take_left' (show (toBe2 name.length).length = 2 from rfl)]
      rw [fromBe2_toBe2 _ hlen]
      rw [if_neg (by omega), if_neg (by omega)]
      rw [List.drop_left' (show (toBe2 name.length).length = 2 from rfl)]
      rw [List.take_left, fromUtf8, if_pos hv]
      rw [← List.drop_drop, hdrop3, List.drop_left]
    rw [hbody]

theorem fieldBytes_length (g : Grid) : (fieldBytes g).length = 60 := rfl

theorem fieldDatOf_fieldBytes (g : Grid) : fieldDatOf (fieldBytes g) = compressField g := by
  funext i
  fin_cases i <;> rfl

theorem getD_drop_addB (l : Bytes) (i k : Nat) :
    (l.drop i).getD k 0 = l.getD (i + k) 0 := by
  simp [List.getD_eq_getElem?_getD, List.getElem?_drop]

theorem getD_append_len (l1 l2 : Bytes) : (l1 ++ l2).getD l1.length 0 = l2.getD 0 0 := by
  simp [List.getD_eq_getElem?_getD, List.getElem?_append_right]

theorem getD_append_len1 (l1 l2 : Bytes) :
    (l1 ++ l2).getD (l1.length + 1) 0 = l2.getD 1 0 := by
  rw [List.getD_eq_getElem?_getD, List.getElem?_append_right (by omega)]
  simp

theorem fromUtf8_valid (l : Bytes) (hv : utf8Valid l = true) : fromUtf8 l = some l := by
  rw [fromUtf8, if_pos hv]

theorem drop_append_len (l1 l2 : Bytes) (n : Nat) :
    (l1 ++ l2).drop (l1.length + n) = l2.drop n := by
  simp [List.drop_append]

theorem getD_append_len2 (l1 l2 : Bytes) :
    (l1 ++ l2).getD (l1.length + 2) 0 = l2.getD 2 0 := by
  rw [List.getD_eq_getElem?_getD, List.getElem?_append_right (by omega)]
  simp

theorem getD_append_len3 (l1 l2 : Bytes) :
    (l1 ++ l2).getD (l1.length + 3) 0 = l2.getD 3 0 := by
  rw [List.getD_eq_getElem?_getD, List.getElem?_append_right (by omega)]
  simp

theorem resp_roundtrip_fieldUpdate (f : FieldState) :
    responsesTryFrom (Responses.FieldUpdate f).intoBytes = .ok (.FieldUpdate f) := by
  obtain ⟨⟨x, y, c⟩, gf⟩ := f
  show responsesTryFrom (9 :: (x :: y :: colorByte c :: fieldBytes gf)) = _
  rw [responsesTryFrom]
  have hbody : responsesTryFromBody (9 :: (x :: y :: colorByte c :: fieldBytes gf)) 9
      = .ok (.FieldUpdate ⟨(x, y, c), gf⟩) := by
    rw [responsesTryFromBody]
    norm_num [fieldBytes_length]
    cases c <;>
      simp [colorByte, colorOfByte, fieldDatOf_fieldBytes, decompress_compress_field]
  rw [hbody]

theorem resp_roundtrip_undo (f : FieldStateNullable) :
    responsesTryFrom (Responses.Undo f).intoBytes = .ok (.Undo f) := by
  obtain ⟨lat, gf⟩ := f
  cases lat with
  | none =>
    show responsesTryFrom (13 :: ([0, 0, 0, 0] ++ fieldBytes gf)) = _
    rw [responsesTryFrom]
    have hbody : responsesTryFromBody (13 :: ([0, 0, 0, 0] ++ fieldBytes gf)) 13
        = .ok (.Undo ⟨none, gf⟩) := by
      rw [responsesTryFromBody]
      norm_num [fieldBytes_length]
      simp [fieldDatOf_fieldBytes, decompress_compress_field]
    rw [hbody]
  | some lat3 =>
    obtain ⟨x, y, c⟩ := lat3
    show responsesTryFrom (13 :: ([1, x, y, colorByte c] ++ fieldBytes gf)) = _
    rw [responsesTryFrom]
    have hbody : responsesTryFromBody (13 :: ([1, x, y, colorByte c] ++ fieldBytes gf)) 13
        = .ok (.Undo ⟨some (x, y, c), gf⟩) := by
      rw [responsesTryFromBody]
      norm_num [fieldBytes_length]
      cases c <;>
        simp [colorByte, colorOfByte, fieldDatOf_fieldBytes, decompress_compress_field]
    rw [hbody]

theorem resp_roundtrip_fromPlayer (name msg : Bytes) (hv : utf8Valid name = true)
    (hlen : name.length < 65536) :
    responsesTryFrom (Responses.FromPlayer name msg).intoBytes
      = .ok (.FromPlayer name msg) := by
  show responsesTryFrom (120 :: (toBe2 name.length ++ name ++ msg)) = _
  rw [responsesTryFrom, List.append_assoc]
  have hbody : responsesTryFromBody (120 :: (toBe2 name.length ++ (name ++ msg))) 120
      = .ok (.FromPlayer name msg) := by
    rw [responsesTryFromBody]
    norm_num
    have hdrop3 : (120 :: (toBe2 name.length ++ (name ++ msg)) : Bytes).drop 3
        = name ++ msg := by
      show (toBe2 name.length ++ (name ++ msg)).drop 2 = _
      exact List.drop_left' (show (toBe2 name.length).length = 2 from rfl)
    rw [toBe2_length]
    rw [List.take_left' (show (toBe2 name.length).length = 2 from rfl)]
    rw [fromBe2_toBe2 _ hlen]
    rw [if_neg (by omega), if_neg (by omega)]
    rw [List.drop_left' (show (toBe2 name.length).length = 2 from rfl)]
    rw [List.take_left, fromUtf8, if_pos hv]
    rw [← List.drop_drop, hdrop3, List.drop_left]
  rw [hbody]

theorem decodeChatMessage_enc (name msg : Bytes) (hv : utf8Valid name = true)
    (hvm : utf8Valid msg = true) (hlen : name.length < 65536) :
    decodeChatMessage (200 :: (toBe2 name.length ++ (name ++ msg))) = .ok (name, msg) := by
  rw [decodeChatMessage]
  have hL : (200 :: (toBe2 name.length ++ (name ++ msg)) : Bytes).length
      = 3 + name.length + msg.length := by
    simp [toBe2]
    omega
  rw [hL, if_neg (by omega)]
  have htake : ((200 :: (toBe2 name.length ++ (name ++ msg)) : Bytes).drop 1).take 2
      = toBe2 name.length := by
    show (toBe2 name.length ++ (name ++ msg)).take 2 = _
    exact List.take_left' rfl
  rw [htake, fromBe2_toBe2 _ hlen, if_neg (by omega)]
  have hdrop3 : (200 :: (toBe2 name.length ++ (name ++ msg)) : Bytes).drop 3 = name ++ msg := by
    show (toBe2 name.length ++ (name ++ msg)).drop 2 = _
    exact List.drop_left' (show (toBe2 name.length).length = 2 from rfl)
  rw [hdrop3, List.take_left, fromUtf8_valid _ hv]
  rw [← List.drop_drop, hdrop3, List.drop_left, fromUtf8_valid _ hvm]

theorem resp_roundtrip_chat (name msg : Bytes) (hv : utf8Valid name = true)
    (hvm : utf8Valid msg = true) (hlen : name.length < 65536) :
    responsesTryFrom (Responses.ChatMessage name msg).intoBytes
      = .ok (.ChatMessage name msg) := by
  show responsesTryFrom (200 :: (toBe2 name.length ++ name ++ msg)) = _
  rw [responsesTryFrom, List.append_assoc]
  have hbody : responsesTryFromBody (200 :: (toBe2 name.length ++ (name ++ msg))) 200
      = .ok (.ChatMessage name msg) := by
    rw [responsesTryFromBody]
    norm_num
    rw [decodeChatMessage_enc name msg hv hvm hlen]
  rw [hbody]

theorem resp_roundtrip_joinSuccess (token : Bytes) (st : RoomState)
    (hv : utf8Valid token = true) (hlen : token.length < 65536)
    (hst : roomStateWF st = true) :
    responsesTryFrom (Responses.JoinRoomSuccess token st).intoBytes
      = .ok (.JoinRoomSuccess token st) := by
  cases st with
  | Empty =>
    show responsesTryFrom (1 :: (toBe2 token.length ++ token ++ [0])) = _
    rw [responsesTryFrom, List.append_assoc]
    have hbody : responsesTryFromBody (1 :: (toBe2 token.length ++ (token ++ [0]))) 1
        = .ok (.JoinRoomSuccess token .Empty) := by
      rw [responsesTryFromBody]
      norm_num
      have hdrop3 : (1 :: (toBe2 token.length ++ (token ++ [0])) : Bytes).drop 3
          = token ++ [0] := by
        show (toBe2 token.length ++ (token ++ [0])).drop 2 = _
        exact List.drop_left' (show (toBe2 token.length).length = 2 from rfl)
      rw [toBe2_length]
      rw [List.take_left' (show (toBe2 token.length).length = 2 from rfl)]
      rw [fromBe2_toBe2 _ hlen]
      rw [if_neg (by omega), if_neg (by omega)]
      rw [List.drop_left' (show (toBe2 token.length).length = 2 from rfl)]
      rw [List.take_left, fromUtf8_valid _ hv]
      have hg : ((1 :: (toBe2 token.length ++ (token ++ [0])) : Bytes)[3 + token.length]?).getD 0
          = 0 := by
        rw [← List.getD_eq_getElem?_getD, ← getD_drop_addB, hdrop3, getD_append_len]
        rfl
      rw [hg]
      norm_num
    rw [hbody]
  | OpponentUnready name =>
    have hvn : utf8Valid name = true := by simpa [roomStateWF] using hst
    show responsesTryFrom (1 :: (toBe2 token.length ++ token ++ (1 :: name))) = _
    rw [responsesTryFrom, List.append_assoc]
    have hbody : responsesTryFromBody (1 :: (toBe2 token.length ++ (token ++ (1 :: name)))) 1
        = .ok (.JoinRoomSuccess token (.OpponentUnready name)) := by
      rw [responsesTryFromBody]
      norm_num
      have hdrop3 : (1 :: (toBe2 token.length ++ (token ++ (1 :: name))) : Bytes).drop 3
          = token ++ (1 :: name) := by
        show (toBe2 token.length ++ (token ++ (1 :: name))).drop 2 = _
        exact List.drop_left' (show (toBe2 token.length).length = 2 from rfl)
      rw [toBe2_length]
      rw [List.take_left' (show (toBe2 token.length).length = 2 from rfl)]
      rw [fromBe2_toBe2 _ hlen]
      rw [if_neg (by omega), if_neg (by omega)]
      rw [List.drop_left' (show (toBe2 token.length).length = 2 from rfl)]
      rw [List.take_left, fromUtf8_valid _ hv]
      have hg : ((1 :: (toBe2 token.length ++ (token ++ (1 :: name))) : Bytes)[3 + token.length]?).getD 0
          = 1 := by
        rw [← List.getD_eq_getElem?_getD, ← getD_drop_addB, hdrop3, getD_append_len]
        rfl
      have hd4 : (1 :: (toBe2 token.length ++ (token ++ (1 :: name))) : Bytes).drop
          (4 + token.length) = name := by
        rw [show 4 + token.length = 3 + (token.length + 1) from by omega, ← List.drop_drop,
          hdrop3, drop_append_len]
        rfl
      rw [hg]
      norm_num
      rw [hd4, fromUtf8_valid _ hvn]
    rw [hbody]
  | OpponentReady name =>
    have hvn : utf8Valid name = true := by simpa [roomStateWF] using hst
    show responsesTryFrom (1 :: (toBe2 token.length ++ token ++ (2 :: name))) = _
    rw [responsesTryFrom, List.append_assoc]
    have hbody : responsesTryFromBody (1 :: (toBe2 token.length ++ (token ++ (2 :: name)))) 1
        = .ok (.JoinRoomSuccess token (.OpponentReady name)) := by
      rw [responsesTryFromBody]
      norm_num
      have hdrop3 : (1 :: (toBe2 token.length ++ (token ++ (2 :: name))) : Bytes).drop 3
          = token ++ (2 :: name) := by
        show (toBe2 token.length ++ (token ++ (2 :: name))).drop 2 = _
        exact List.drop_left' (show (toBe2 token.length).length = 2 from rfl)
      rw [toBe2_length]
      rw [List.take_left' (show (toBe2 token.length).length = 2 from rfl)]
      rw [fromBe2_toBe2 _ hlen]
      rw [if_neg (by omega), if_neg (by omega)]
      rw [List.drop_left' (show (toBe2 token.length).length = 2 from rfl)]
      rw [List.take_left, fromUtf8_valid _ hv]
      have hg : ((1 :: (toBe2 token.length ++ (token ++ (2 :: name))) : Bytes)[3 + token.length]?).getD 0
          = 2 := by
        rw [← List.getD_eq_getElem?_getD, ← getD_drop_addB, hdrop3, getD_append_len]
        rfl
      have hd4 : (1 :: (toBe2 token.length ++ (token ++ (2 :: name))) : Bytes).drop
          (4 + token.length) = name := by
        rw [show 4 + token.length = 3 + (token.length + 1) from by omega, ← List.drop_drop,
          hdrop3, drop_append_len]
        rfl
      rw [hg]
      norm_num
      rw [hd4, fromUtf8_valid _ hvn]
    rw [hbody]

theorem decodeScores_enc (a : Bytes) (s0 : Nat) (b : Bytes) (s1 : Nat)
    (hva : utf8Valid a = true) (hvb : utf8Valid b = true)
    (hla : a.length < 65536) (hlb : b.length < 65536)
    (hs0 : s0 < 65536) (hs1 : s1 < 65536) :
    decodeScores (24 :: (toBe2 a.length ++ (a ++ (toBe2 s0 ++ (toBe2 b.length
      ++ (b ++ toBe2 s1)))))) = .ok ((a, s0), (b, s1)) := by
  rw [decodeScores]
  have hL : (24 :: (toBe2 a.length ++ (a ++ (toBe2 s0 ++ (toBe2 b.length
      ++ (b ++ toBe2 s1))))) : Bytes).length = 9 + a.length + b.length := by
    simp [toBe2]
    omega
  have hdrop3 : (24 :: (toBe2 a.length ++ (a ++ (toBe2 s0 ++ (toBe2 b.length
      ++ (b ++ toBe2 s1))))) : Bytes).drop 3
      = a ++ (toBe2 s0 ++ (toBe2 b.length ++ (b ++ toBe2 s1))) := by
    show (toBe2 a.length ++ (a ++ (toBe2 s0 ++ (toBe2 b.length ++ (b ++ toBe2 s1))))).drop 2 = _
    exact List.drop_left' (show (toBe2 a.length).length = 2 from rfl)
  have hdrop7 : (24 :: (toBe2 a.length ++ (a ++ (toBe2 s0 ++ (toBe2 b.length
      ++ (b ++ toBe2 s1))))) : Bytes).drop (7 + a.length) = b ++ toBe2 s1 := by
    rw [show 7 + a.length = 3 + (a.length + 4) from by omega, ← List.drop_drop, hdrop3,
      drop_append_len]
    rfl
  have g1 : (24 :: (toBe2 a.length ++ (a ++ (toBe2 s0 ++ (toBe2 b.length
      ++ (b ++ toBe2 s1))))) : Bytes)[3 + a.length]?.getD 0 = s0 % 65536 / 256 := by
    rw [← List.getD_eq_getElem?_getD, ← getD_drop_addB, hdrop3, getD_append_len]
    rfl
  have g2 : (24 :: (toBe2 a.length ++ (a ++ (toBe2 s0 ++ (toBe2 b.length
      ++ (b ++ toBe2 s1))))) : Bytes)[4 + a.length]?.getD 0 = s0 % 256 := by
    rw [← List.getD_eq_getElem?_getD, show 4 + a.length = 3 + (a.length + 1) from by omega, ← getD_drop_addB, hdrop3,
      getD_append_len1]
    rfl
  have g3 : (24 :: (toBe2 a.length ++ (a ++ (toBe2 s0 ++ (toBe2 b.length
      ++ (b ++ toBe2 s1))))) : Bytes)[5 + a.length]?.getD 0 = b.length % 65536 / 256 := by
    rw [← List.getD_eq_getElem?_getD, show 5 + a.length = 3 + (a.length + 2) from by omega, ← getD_drop_addB, hdrop3,
      getD_append_len2]
    rfl
  have g4 : (24 :: (toBe2 a.length ++ (a ++ (toBe2 s0 ++ (toBe2 b.length
      ++ (b ++ toBe2 s1))))) : Bytes)[6 + a.length]?.getD 0 = b.length % 256 := by
    rw [← List.getD_eq_getElem?_getD, show 6 + a.length = 3 + (a.length + 3) from by omega, ← getD_drop_addB, hdrop3,
      getD_append_len3]
    rfl
  have g5 : (24 :: (toBe2 a.length ++ (a ++ (toBe2 s0 ++ (toBe2 b.length
      ++ (b ++ toBe2 s1))))) : Bytes)[7 + a.length + b.length]?.getD 0
      = s1 % 65536 / 256 := by
    rw [← List.getD_eq_getElem?_getD, ← getD_drop_addB, hdrop7, getD_append_len]
    rfl
  have g6 : (24 :: (toBe2 a.length ++ (a ++ (toBe2 s0 ++ (toBe2 b.length
      ++ (b ++ toBe2 s1))))) : Bytes)[8 + a.length + b.length]?.getD 0 = s1 % 256 := by
    rw [← List.getD_eq_getElem?_getD, show 8 + a.length + b.length = 7 + a.length + (b.length + 1) from by omega,
      ← getD_drop_addB, hdrop7, getD_append_len1]
    rfl
  have htake : ((24 :: (toBe2 a.length ++ (a ++ (toBe2 s0 ++ (toBe2 b.length
      ++ (b ++ toBe2 s1))))) : Bytes).drop 1).take 2 = toBe2 a.length := by
    show (toBe2 a.length ++ (a ++ (toBe2 s0 ++ (toBe2 b.length ++ (b ++ toBe2 s1))))).take 2 = _
    exact List.take_left' rfl
  rw [hL, if_neg (by omega), htake, fromBe2_toBe2 _ hla, if_neg (by omega)]
  rw [hdrop3, List.take_left, fromUtf8_valid _ hva]
  norm_num
  rw [g1, g2, show fromBeBytes [s0 % 65536 / 256, s0 % 256] = s0 from fromBe2_toBe2 s0 hs0]
  rw [g3, g4,
    show fromBeBytes [b.length % 65536 / 256, b.length % 256] = b.length
      from fromBe2_toBe2 b.length hlb]
  rw [if_neg (by omega)]
  rw [hdrop7, List.take_left, fromUtf8_valid _ hvb]
  norm_num
  rw [g5, g6, show fromBeBytes [s1 % 65536 / 256, s1 % 256] = s1 from fromBe2_toBe2 s1 hs1]

theorem resp_roundtrip_scores (a : Bytes) (s0 : Nat) (b : Bytes) (s1 : Nat)
    (hva : utf8Valid a = true) (hvb : utf8Valid b = true)
    (hla : a.length < 65536) (hlb : b.length < 65536)
    (hs0 : s0 < 65536) (hs1 : s1 < 65536) :
    responsesTryFrom (Responses.RoomScores (a, s0) (b, s1)).intoBytes
      = .ok (.RoomScores (a, s0) (b, s1)) := by
  show responsesTryFrom
      (24 :: (toBe2 a.length ++ a ++ toBe2 s0 ++ toBe2 b.length ++ b ++ toBe2 s1)) = _
  rw [responsesTryFrom, List.append_assoc, List.append_assoc, List.append_assoc,
    List.append_assoc]
  have hbody : responsesTryFromBody (24 :: (toBe2 a.length ++ (a ++ (toBe2 s0
      ++ (toBe2 b.length ++ (b ++ toBe2 s1)))))) 24 = .ok (.RoomScores (a, s0) (b, s1)) := by
    rw [responsesTryFromBody]
    norm_num
    rw [decodeScores_enc a s0 b s1 hva hvb hla hlb hs0 hs1]
  rw [hbody]

theorem responses_roundtrip (r : Responses) (h : responsesWF r = true) :
    responsesTryFrom r.intoBytes = .ok r := by
  cases r with
  | FromPlayer name msg =>
    simp only [responsesWF, Bool.and_eq_true, decide_eq_true_eq] at h
    exact resp_roundtrip_fromPlayer name msg h.1 h.2
  | ConnectionSuccess => decide
  | ConnectionInitFailure e =>
    cases e with
    | IpMaxConnExceed => decide
    | ConnectionClosed => decide
    | UserNameNotReceived => decide
    | UserNameTooLong => decide
    | UserNameExists => decide
    | InvalidUserName => decide
    | NetworkError e2 =>
      have h2 : e2 = ConnectionError.UnknownError := by
        simpa [responsesWF, connInitWF] using h
      subst h2
      decide
  | RoomCreated token =>
    simp only [responsesWF, Bool.and_eq_true] at h
    obtain ⟨hv, hne0⟩ := h
    have hne : token ≠ [] := by simpa using hne0
    show responsesTryFrom (0 :: token) = .ok (.RoomCreated token)
    rw [responsesTryFrom]
    have hbody : responsesTryFromBody (0 :: token) 0 = .ok (.RoomCreated token) := by
      rw [responsesTryFromBody]
      norm_num
      rw [decodeUtf8String_cons _ _ hv hne]
      rfl
    rw [hbody]
  | JoinRoomSuccess token st =>
    simp only [responsesWF, Bool.and_eq_true, decide_eq_true_eq] at h
    exact resp_roundtrip_joinSuccess token st h.1.1 h.1.2 h.2
  | JoinRoomFailureTokenNotFound => decide
  | JoinRoomFailureRoomFull => decide
  | OpponentJoinRoom name =>
    simp only [responsesWF, Bool.and_eq_true] at h
    obtain ⟨hv, hne0⟩ := h
    have hne : name ≠ [] := by simpa using hne0
    show responsesTryFrom (4 :: name) = .ok (.OpponentJoinRoom name)
    rw [responsesTryFrom]
    have hbody : responsesTryFromBody (4 :: name) 4 = .ok (.OpponentJoinRoom name) := by
      rw [responsesTryFromBody]
      norm_num
      rw [decodeUtf8String_cons _ _ hv hne]
      rfl
    rw [hbody]
  | OpponentQuitRoom => decide
  | OpponentReady => decide
  | OpponentUnready => decide
  | GameStarted c => cases c <;> decide
  | FieldUpdate f => exact resp_roundtrip_fieldUpdate f
  | UndoRequest => decide
  | UndoTimeoutRejected => decide
  | UndoAutoRejected => decide
  | Undo f => exact resp_roundtrip_undo f
  | UndoRejectedByOpponent => decide
  | GameEndBlackTimeout => decide
  | GameEndWhiteTimeout => decide
  | GameEndBlackWins => decide
  | GameEndWhiteWins => decide
  | GameEndDraw => decide
  | RoomScores p0 p1 =>
    obtain ⟨a, s0⟩ := p0
    obtain ⟨b, s1⟩ := p1
    simp only [responsesWF, Bool.and_eq_true, decide_eq_true_eq] at h
    obtain ⟨⟨⟨⟨⟨hva, hla⟩, hs0⟩, hvb⟩, hlb⟩, hs1⟩ := h
    exact resp_roundtrip_scores a s0 b s1 hva hvb hla hlb hs0 hs1
  | OpponentQuitGameSession => decide
  | OpponentExitGame => decide
  | OpponentDisconnected => decide
  | GameSessionError msg =>
    simp only [responsesWF, Bool.and_eq_true] at h
    obtain ⟨hv, hne0⟩ := h
    have hne : msg ≠ [] := by simpa using hne0
    show responsesTryFrom (23 :: msg) = .ok (.GameSessionError msg)
    rw [responsesTryFrom]
    have hbody : responsesTryFromBody (23 :: msg) 23 = .ok (.GameSessionError msg) := by
      rw [responsesTryFromBody]
      norm_num
      rw [decodeUtf8String_cons _ _ hv hne]
      rfl
    rw [hbody]
  | ChatMessage name msg =>
    simp only [responsesWF, Bool.and_eq_true, decide_eq_true_eq] at h
    exact resp_roundtrip_chat name msg h.1.1 h.2 h.1.2

/-- C3 (amended): encoding then decoding is the identity on every `Messages`
and `Responses` value whose payloads are representable on the wire: strings
are valid UTF-8, bare-string bodies (user name, chat text, error text, room
token) are nonempty, length-prefixed names and scores fit in a `u16`,
`JoinRoom` tokens consist of ten codes drawn from the 116-symbol alphabet,
and a `NetworkError` payload is `UnknownError` (the decoder collapses every
network error to it).  The original claim fails for representable values
outside these bounds, e.g. an empty chat message. -/
theorem C3_codec_roundtrip :
    (∀ m : Messages, messagesWF m = true → messagesTryFrom m.intoBytes = .ok m)
      ∧ ∀ r : Responses, responsesWF r = true → responsesTryFrom r.intoBytes = .ok r :=
  ⟨messages_roundtrip, responses_roundtrip⟩

/-- C3 counterexample: `Messages::ChatMessage("")` is a representable value
(a Rust `String` may be empty), its encoding is the single byte `[200]`, and
`decode_utf8_string` rejects any input shorter than two bytes, so the decoder
returns a length error instead of the original message. -/
theorem C3_counterexample :
    messagesTryFrom (Messages.ChatMessage []).intoBytes ≠ .ok (.ChatMessage [])
      ∧ messagesTryFrom (Messages.ChatMessage []).intoBytes = .fail .badLength := by
  refine ⟨?_, rfl⟩
  decide

theorem C3_codec_roundtrip_witness :
    messagesWF (.Play 5 3) = true ∧ responsesWF (.GameStarted .Black) = true
      ∧ messagesTryFrom (Messages.Play 5 3).intoBytes = .ok (.Play 5 3)
      ∧ responsesTryFrom (Responses.GameStarted .Black).intoBytes
          = .ok (.GameStarted .Black) :=
  ⟨by decide, by decide, C3_codec_roundtrip.1 (.Play 5 3) (by decide),
    C3_codec_roundtrip.2 (.GameStarted .Black) (by decide)⟩
